import Mathlib

/-!
Verification of the darkhall simulation core (`src/simulation` plus
`src/core`).  The TypeScript sources are shallowly embedded: grid
coordinates become integer pairs, the mutable cell grid becomes a total
function `V2 → CellType` updated through the bounds-checked
`setCellType`, `Math.random()` becomes an arbitrary stream
`rng : Nat → Nat` reduced modulo the requested range (so theorems
quantified over `rng` cover every sequence of random draws), and the
`while` loops of maze generation and breadth-first search become
fuel-indexed structural recursion with fuel large enough to cover every
terminating run (the invariant proofs below hold for every fuel value,
so they are independent of the particular bound).

Floating-point remark: the sources compare `Math.sqrt`-derived
distances against constants.  All such comparisons are embedded by the
exact equivalent comparison on squared distances over `ℤ`/`ℚ`
(`√s > c ↔ s > c²` for `c ≥ 0`), which is the real-number semantics of
the source expressions; value-level light intensities that genuinely
involve `cos`/`arccos`/`sqrt` are embedded over `ℝ`.
-/

namespace DarkHall

/-- Integer 2D coordinate, the embedding of `Vector2` in its role as a
grid address (`src/core/Vector2.ts`). -/
structure V2 where
  x : Int
  y : Int
deriving DecidableEq, Repr

/-- Componentwise addition, `Vector2.add`. -/
def V2.add (a b : V2) : V2 := ⟨a.x + b.x, a.y + b.y⟩

/-- Squared Euclidean distance between two grid coordinates.  The
source computes `a.distanceTo(b) = √((ax-bx)² + (ay-by)²)`; every
comparison of that distance against a constant `c ≥ 0` is embedded as
the exact equivalent comparison of `distSq` against `c²`. -/
def distSq (a b : V2) : Int := (a.x - b.x) ^ 2 + (a.y - b.y) ^ 2

/-- Cell types of the maze grid (`CellType` in `Maze.ts`). -/
inductive CellType where
  | wall
  | floor
  | start
  | prize
deriving DecidableEq, Repr

/-- The maze cell grid, total over coordinates; out-of-bounds reads are
prevented by the bounds checks that the source performs (`getCell`
returns `null` outside the grid). -/
def Grid := V2 → CellType

/-- Bounds check, `Maze.isValidPosition`. -/
def isValidPosition (w h : Int) (p : V2) : Prop :=
  0 ≤ p.x ∧ p.x < w ∧ 0 ≤ p.y ∧ p.y < h

instance (w h : Int) (p : V2) : Decidable (isValidPosition w h p) :=
  inferInstanceAs (Decidable (0 ≤ p.x ∧ p.x < w ∧ 0 ≤ p.y ∧ p.y < h))

/-- Cell lookup, `Maze.getCell`: `null` (here `none`) out of bounds. -/
def getCell (w h : Int) (g : Grid) (p : V2) : Option CellType :=
  if isValidPosition w h p then some (g p) else none

/-- Guarded cell update, `Maze.setCellType`: mutates only when the cell
exists. -/
def setCellType (w h : Int) (g : Grid) (p : V2) (t : CellType) : Grid :=
  fun q => if isValidPosition w h p ∧ q = p then t else g q

/-- Walkability, `Maze.isWalkable`: the cell exists and is not a wall. -/
def isWalkable (w h : Int) (g : Grid) (p : V2) : Prop :=
  isValidPosition w h p ∧ g p ≠ CellType.wall

instance (w h : Int) (g : Grid) (p : V2) : Decidable (isWalkable w h g p) :=
  inferInstanceAs (Decidable (_ ∧ _))

/-- The four cardinal direction offsets, in the order the source lists
them (up, right, down, left). -/
def directions4 : List V2 := [⟨0, -1⟩, ⟨1, 0⟩, ⟨0, 1⟩, ⟨-1, 0⟩]

/-- 4-directional in-bounds neighbours, `Maze.getAdjacentPositions`. -/
def getAdjacentPositions (w h : Int) (p : V2) : List V2 :=
  ((directions4.map fun d => p.add d).filter fun q => decide (isValidPosition w h q))

/-- One walkable step of the maze graph: `q` is a 4-neighbour of `p`
and is a walkable cell. -/
def Step (w h : Int) (g : Grid) (p q : V2) : Prop :=
  q ∈ getAdjacentPositions w h p ∧ isWalkable w h g q

/-- Walkable reachability: a walkable path (as found by breadth-first
search over non-wall cells with 4-directional adjacency) exists from
`p` to `q`. -/
def Reach (w h : Int) (g : Grid) (p q : V2) : Prop :=
  Relation.ReflTransGen (Step w h g) p q

/-- A grid extension that never turns a walkable cell back into a wall.
Every write performed during maze generation has this shape. -/
def WalkPres (g g' : Grid) : Prop :=
  ∀ p : V2, g p ≠ CellType.wall → g' p ≠ CellType.wall

/-! ## Maze generation (`src/simulation/Maze.ts`)

The generator mutates the grid through `setCellType` only.  The carve
loop's explicit stack keeps its top at the list head (the source keeps
it at the array end); `Math.random()` draws are `rng k % range`, which
realises every possible sequence of in-range choices as `rng` varies.
The `while` loop becomes fuel recursion; `4·w·h + 4` fuel strictly
exceeds the worst-case iteration count (each iteration either marks a
new cell visited or pops the stack), and every theorem below is proved
by an invariant that holds at each step, hence for every fuel value. -/

/-- The fixed start coordinate `(1, 1)`. -/
def start11 : V2 := ⟨1, 1⟩

/-- Two-cells-away direction offsets used by the carve
(`getUnvisitedNeighbors`), in source order. -/
def carveDirections : List V2 := [⟨0, -2⟩, ⟨2, 0⟩, ⟨0, 2⟩, ⟨-2, 0⟩]

/-- `Maze.getUnvisitedNeighbors`: valid, strictly interior, unvisited
lattice neighbours two steps away. -/
def getUnvisitedNeighbors (w h : Int) (visited : List V2) (pos : V2) : List V2 :=
  ((carveDirections.map fun d => pos.add d).filter fun n =>
    decide (isValidPosition w h n ∧ 0 < n.x ∧ n.x < w - 1 ∧
      0 < n.y ∧ n.y < h - 1 ∧ n ∉ visited))

/-- The wall cell halfway between a carve cell and its chosen
neighbour: `((current.x + next.x) / 2, (current.y + next.y) / 2)`. -/
def wallBetween (current next : V2) : V2 :=
  ⟨(current.x + next.x) / 2, (current.y + next.y) / 2⟩

/-- The recursive-backtracking carve loop of `generateSimpleMaze`.
Returns the carved grid and the advanced random-stream index. -/
def carveLoop (w h : Int) (rng : Nat → Nat) :
    Nat → Grid → List V2 → List V2 → Nat → Grid × Nat
  | 0, g, _, _, k => (g, k)
  | fuel + 1, g, stack, visited, k =>
    match stack with
    | [] => (g, k)
    | current :: rest =>
      let ns := getUnvisitedNeighbors w h visited current
      if hns : ns = [] then
        carveLoop w h rng fuel g rest visited k
      else
        let next := ns.get ⟨rng k % ns.length, Nat.mod_lt _ (List.length_pos.mpr hns)⟩
        let g1 := setCellType w h g next CellType.floor
        let g2 := setCellType w h g1 (wallBetween current next) CellType.floor
        carveLoop w h rng fuel g2 (next :: current :: rest) (next :: visited) (k + 1)

/-- Number of 4-neighbours of `p` whose cell type is `floor`
(the `adjacentFloors` computation of `Maze.ts`). -/
def adjacentFloorCount (w h : Int) (g : Grid) (p : V2) : Nat :=
  ((getAdjacentPositions w h p).filter fun q => decide (g q = CellType.floor)).length

/-- `Maze.shouldCreateConnection`: between 2 and 3 adjacent floors. -/
def shouldCreateConnection (w h : Int) (g : Grid) (p : V2) : Prop :=
  2 ≤ adjacentFloorCount w h g p ∧ adjacentFloorCount w h g p ≤ 3

instance (w h : Int) (g : Grid) (p : V2) :
    Decidable (shouldCreateConnection w h g p) :=
  inferInstanceAs (Decidable (_ ∧ _))

/-- A random interior position: `floor(random()·(w-2)) + 1` for each
axis, i.e. coordinates in `[1, w-2] × [1, h-2]`.  Consumes two draws. -/
def randomInterior (w h : Int) (rng : Nat → Nat) (k : Nat) : V2 :=
  ⟨(rng k : Int) % (w - 2) + 1, (rng (k + 1) : Int) % (h - 2) + 1⟩

/-- The first connection pass, `Maze.addRandomConnections` (the
`connectionCount`-iteration sampling loop). -/
def addRandomConnectionsLoop (w h : Int) (rng : Nat → Nat) :
    Nat → Grid → Nat → Grid × Nat
  | 0, g, k => (g, k)
  | i + 1, g, k =>
    let pos := randomInterior w h rng k
    let g1 := if shouldCreateConnection w h g pos then
      setCellType w h g pos CellType.floor else g
    addRandomConnectionsLoop w h rng i g1 (k + 2)

/-- The second pass, `Maze.addStrategicConnections`: open wall cells
with at least two adjacent floors. -/
def addStrategicConnectionsLoop (w h : Int) (rng : Nat → Nat) :
    Nat → Grid → Nat → Grid × Nat
  | 0, g, k => (g, k)
  | i + 1, g, k =>
    let pos := randomInterior w h rng k
    let g1 := if g pos = CellType.wall ∧ 2 ≤ adjacentFloorCount w h g pos then
      setCellType w h g pos CellType.floor else g
    addStrategicConnectionsLoop w h rng i g1 (k + 2)

/-- `Maze.generateSimpleMaze`: carve from `(1,1)`, then the two
connection passes.  Iteration counts are `⌊w·h/25⌋` and `⌊w·h/40⌋`. -/
def generateSimpleMaze (w h : Int) (rng : Nat → Nat) (g0 : Grid) (k0 : Nat) :
    Grid × Nat :=
  let g1 := setCellType w h g0 start11 CellType.floor
  let r2 := carveLoop w h rng (4 * w.toNat * h.toNat + 4) g1 [start11] [start11] k0
  let r3 := addRandomConnectionsLoop w h rng ((w * h) / 25).toNat r2.1 r2.2
  addStrategicConnectionsLoop w h rng ((w * h) / 40).toNat r3.1 r3.2

/-- Row-major list of every grid position (`Maze.getAllCells`). -/
def allPositions (w h : Int) : List V2 :=
  (List.range h.toNat).flatMap fun (y : Nat) =>
    (List.range w.toNat).map fun (x : Nat) => V2.mk (x : Int) (y : Int)

/-- `Maze.findGoodPrizePosition`: the floor cell (excluding the start)
farthest from the start by straight-line distance; `(w-2, h-2)` as a
fallback when no floor cell exists.  The source compares
`Math.sqrt`-distances with strict `>`; the comparison is embedded on
squared distances, its exact real equivalent. -/
def findGoodPrizePosition (w h : Int) (g : Grid) : V2 :=
  let floorCells := (allPositions w h).filter fun p =>
    decide (g p = CellType.floor ∧ p ≠ start11)
  match floorCells with
  | [] => ⟨w - 2, h - 2⟩
  | c :: cs =>
    (c :: cs).foldl (fun best cell =>
      if distSq start11 best < distSq start11 cell then cell else best) c

/-- The breadth-first search queue loop of
`Maze.hasPathFromStartToPrize`.  The queue is FIFO (head = front);
neighbours are marked visited as they are enqueued. -/
def bfsReachLoop (w h : Int) (g : Grid) (target : V2) :
    Nat → List V2 → List V2 → Bool
  | 0, _, _ => false
  | fuel + 1, queue, visited =>
    match queue with
    | [] => false
    | current :: rest =>
      if current = target then true
      else
        let fresh := (getAdjacentPositions w h current).filter fun n =>
          decide (n ∉ visited ∧ isWalkable w h g n)
        bfsReachLoop w h g target fuel (rest ++ fresh) (visited ++ fresh)

/-- `Maze.hasPathFromStartToPrize`: BFS from the start looking for the
prize.  `w·h + 1` fuel exceeds the possible number of dequeues (every
enqueued cell is distinct). -/
def hasPathFromStartToPrize (w h : Int) (g : Grid) (prizePos : V2) : Bool :=
  bfsReachLoop w h g prizePos (w.toNat * h.toNat + 1) [start11] [start11]

/-- The observable result of the `Maze` constructor. -/
structure Maze where
  width : Int
  height : Int
  grid : Grid
  startPosition : V2
  prizePosition : V2

/-- The `Maze` constructor: all-wall grid, generation, prize selection,
typing of start and prize cells, connectivity check with a single
regeneration on failure (the retry neither resets the grid to walls nor
restores the start cell's `start` type, exactly as in the source).
Also returns the advanced random-stream index. -/
def mkMaze (w h : Int) (rng : Nat → Nat) : Maze × Nat :=
  let g0 : Grid := fun _ => CellType.wall
  let r1 := generateSimpleMaze w h rng g0 0
  let prize1 := findGoodPrizePosition w h r1.1
  let g2 := setCellType w h (setCellType w h r1.1 start11 CellType.start)
    prize1 CellType.prize
  if hasPathFromStartToPrize w h g2 prize1 then
    (⟨w, h, g2, start11, prize1⟩, r1.2)
  else
    let r3 := generateSimpleMaze w h rng g2 r1.2
    let prize2 := findGoodPrizePosition w h r3.1
    let g4 := setCellType w h r3.1 prize2 CellType.prize
    (⟨w, h, g4, start11, prize2⟩, r3.2)

/-- The generation invariant: every walkable cell is reachable from the
start cell `(1,1)`. -/
def Inv (w h : Int) (g : Grid) : Prop :=
  ∀ p : V2, isWalkable w h g p → Reach w h g start11 p

/-- Floor persistence: generation never turns a floor cell into
anything else (every write during generation writes `floor`). -/
def FloorPres (g g' : Grid) : Prop :=
  ∀ p : V2, g p = CellType.floor → g' p = CellType.floor

/-! ## Pursuer AI (`src/simulation/Monster.ts`)

Timers and speeds are embedded over `ℚ` (the source uses millisecond
floats).  The one genuinely transcendental quantity, the distance-based
light intensity at the pursuer's position, is embedded over `ℝ` with
`Real.sqrt`; the update's branch condition uses the exact squared-
distance equivalent, proved equal to the `> 0.5` comparison below
(`getLightIntensityAtPosition_gt_half_iff`). -/

/-- The pursuer's state (`Monster`).  The maze reference is passed to
the operations explicitly. -/
structure Monster where
  position : V2
  speed : ℚ
  lastMoveTime : ℚ
  isActive : Bool
  fearOfLight : Bool
  path : List V2
  lastPlayerPosition : V2
  recalculatePathTimer : ℚ
deriving DecidableEq

/-- The `Monster` constructor (`speed` defaults to 800 at the class,
1200 at the orchestrator's call site). -/
def mkMonster (startPosition : V2) (speed : ℚ) : Monster :=
  { position := startPosition, speed := speed, lastMoveTime := 0,
    isActive := true, fearOfLight := true, path := [],
    lastPlayerPosition := ⟨-1, -1⟩, recalculatePathTimer := 0 }

/-- The BFS queue loop of `calculatePathToPlayer`: FIFO queue of
(position, path-so-far) pairs, visited marked at enqueue time, and the
depth cap `path.length > 15 → continue` applied after the found-check
and before expansion, exactly as in the source. -/
def monsterBfsLoop (mz : Maze) (playerPosition : V2) :
    Nat → List (V2 × List V2) → List V2 → List V2
  | 0, _, _ => []
  | fuel + 1, queue, visited =>
    match queue with
    | [] => []
    | (pos, path) :: rest =>
      if pos = playerPosition then path
      else if 15 < path.length then monsterBfsLoop mz playerPosition fuel rest visited
      else
        let fresh := (getAdjacentPositions mz.width mz.height pos).filter fun n =>
          decide (n ∉ visited ∧ isWalkable mz.width mz.height mz.grid n)
        monsterBfsLoop mz playerPosition fuel
          (rest ++ fresh.map fun n => (n, path ++ [n])) (visited ++ fresh)

/-- `Monster.calculatePathToPlayer`: BFS returning the found path, or
`[]` when the queue runs dry (the source clears `this.path`).
`w·h + 1` fuel exceeds the possible number of dequeues. -/
def calculatePathToPlayer (mz : Maze) (startPos playerPos : V2) : List V2 :=
  monsterBfsLoop mz playerPos (mz.width.toNat * mz.height.toNat + 1)
    [(startPos, [])] [startPos]

/-- `Monster.moveTowardsPlayer`: step to the path head if it is still
walkable, otherwise discard the whole path. -/
def moveTowardsPlayer (mz : Maze) (m : Monster) : Monster :=
  match m.path with
  | [] => m
  | next :: restPath =>
    if isWalkable mz.width mz.height mz.grid next then
      { m with position := next, path := restPath }
    else
      { m with path := [] }

/-- `Monster.getLightIntensityAtPosition`: a distance-based proxy
computed from the pursuer's own position and the player position
(`flashlightRange = 4`): `0` beyond range 4, else
`max 0 (1 - distance/4)`. -/
noncomputable def getLightIntensityAtPosition (monsterPos playerPos : V2) : ℝ :=
  if 4 < Real.sqrt ((distSq monsterPos playerPos : ℤ) : ℝ) then 0
  else max 0 (1 - Real.sqrt ((distSq monsterPos playerPos : ℤ) : ℝ) / 4)

/-- The movement-interval multiplier of `Monster.update`.  The source
computes `fearOfLight && lightIntensityAtMonster > 0.5` with the
distance-based proxy above; over the reals that comparison is exactly
`distSq < 4` (see `getLightIntensityAtPosition_gt_half_iff`), which is
the decidable form used here. -/
def monsterSpeedModifier (m : Monster) (playerPosition : V2) : ℚ :=
  if m.fearOfLight = true ∧ distSq m.position playerPosition < 4 then 2 else 1

/-- `Monster.update`.  The `playerLightIntensity` argument is accepted
(the orchestrator passes the illumination sample at the player's own
position) but, as in the source, never read: the fear-of-light slowdown
is decided by the internal distance-based proxy.  The recompute
condition `distanceTo > 2` is embedded as `distSq > 4`, its exact
equivalent. -/
def monsterUpdate (mz : Maze) (deltaTime : ℚ) (playerPosition : V2)
    (playerLightIntensity : ℝ) (m : Monster) : Monster :=
  if m.isActive = false then m
  else
    let m1 := { m with lastMoveTime := m.lastMoveTime + deltaTime,
                       recalculatePathTimer := m.recalculatePathTimer + deltaTime }
    let speedModifier := monsterSpeedModifier m1 playerPosition
    let m2 := if 1000 < m1.recalculatePathTimer ∨
        4 < distSq m1.lastPlayerPosition playerPosition then
        { m1 with path := calculatePathToPlayer mz m1.position playerPosition,
                  lastPlayerPosition := playerPosition,
                  recalculatePathTimer := 0 }
      else m1
    if m1.speed * speedModifier ≤ m2.lastMoveTime then
      { moveTowardsPlayer mz m2 with lastMoveTime := 0 }
    else m2

/-- `Monster.hasCaughtPlayer`: exact cell equality. -/
def hasCaughtPlayer (m : Monster) (playerPosition : V2) : Prop :=
  m.position = playerPosition

instance (m : Monster) (p : V2) : Decidable (hasCaughtPlayer m p) :=
  inferInstanceAs (Decidable (_ = _))

/-- `Monster.resetPosition`. -/
def resetPosition (newPosition : V2) (m : Monster) : Monster :=
  { m with position := newPosition, path := [], lastMoveTime := 0,
           recalculatePathTimer := 0 }

/-! ## Soundness of the capped pursuer search -/

/-- A walkable path in the maze, as stored by the pursuer: the list of
successive cells from the position after the first step (the starting
cell is not part of the list) to the final cell. -/
def ValidPath (mz : Maze) : V2 → List V2 → Prop
  | _, [] => True
  | p, q :: qs => q ∈ getAdjacentPositions mz.width mz.height p ∧
      isWalkable mz.width mz.height mz.grid q ∧ ValidPath mz q qs

/-- The endpoint of a stored path starting at `p`. -/
def pathLast (p : V2) (l : List V2) : V2 := l.getLastD p

/-! ## Player and illumination model (`src/simulation/Player.ts`)

Direction vectors (`facing`, `flashlightDirection`) are stored as exact
rational pairs, unnormalised: the source normalises them, but every
in-scope use (the cone test and the angular falloff) is invariant under
positive scaling, so the unnormalised vector denotes the same direction
without irrational components.  Cone and range checks are embedded as
their exact squared-comparison equivalents; the real-valued intensity
formulas keep their `sqrt`/`arccos`/`cos` form over `ℝ`.

The footprint map (`Map` keyed by the `"x,y"` string, an injective
encoding of the position) becomes an ordered list keyed by position.
Its entry type is parametric in the intensity number type: the live
code paths only ever store the constant `FOOTPRINT_MAX_INTENSITY`
(embedded in `ℚ`), while `updateFootprints` — which no caller in this
repository invokes — writes cosine-curve values and is therefore
embedded over `ℝ`. -/

/-- A rational 2D vector for stored direction values. -/
structure QV2 where
  x : ℚ
  y : ℚ
deriving DecidableEq, Repr

/-- Squared length of a rational direction vector. -/
def QV2.normSq (v : QV2) : ℚ := v.x ^ 2 + v.y ^ 2

/-- `Vector2.subtract`. -/
def V2.sub (a b : V2) : V2 := ⟨a.x - b.x, a.y - b.y⟩

/-- Squared length of an integer offset vector (`magnitude` squared). -/
def V2.normSq (v : V2) : Int := v.x ^ 2 + v.y ^ 2

/-- Dot product of a stored direction with an integer offset. -/
def qdot (f : QV2) (u : V2) : ℚ := f.x * (u.x : ℚ) + f.y * (u.y : ℚ)

/-- Dot product of two integer offsets. -/
def V2.dot (a b : V2) : Int := a.x * b.x + a.y * b.y

/-- One footprint trail entry, parametric in the intensity type. -/
structure Footprint (α : Type) where
  pos : V2
  timestamp : ℚ
  intensity : α
deriving DecidableEq

/-- `FOOTPRINT_FADE_TIME`, 15000 ms. -/
def FOOTPRINT_FADE_TIME : ℚ := 15000

/-- `FOOTPRINT_MAX_INTENSITY`, the source's `0.12` (the claims compare
this value only with itself and with zero, so the rational `3/25`
represents the binary float exactly for every purpose in scope). -/
def FOOTPRINT_MAX_INTENSITY : ℚ := 3 / 25

/-- The player state.  `flashlightRange = 4` and
`flashlightAngle = π/3` are constants in the source and appear inline
in the operations below. -/
structure Player where
  position : V2
  facing : QV2
  flashlightDirection : QV2
  footprints : List (Footprint ℚ)
deriving DecidableEq

/-- `Player.addFootprint`: `Map.set` keyed by position — refresh in
place when present, append otherwise.  `now` is the ambient
`performance.now()` reading. -/
def addFootprint (now : ℚ) (position : V2) (fps : List (Footprint ℚ)) :
    List (Footprint ℚ) :=
  if fps.any fun f => decide (f.pos = position) then
    fps.map fun f =>
      if f.pos = position then ⟨position, now, FOOTPRINT_MAX_INTENSITY⟩ else f
  else
    fps ++ [⟨position, now, FOOTPRINT_MAX_INTENSITY⟩]

/-- The `Player` constructor: face up, flashlight along the facing,
seed one footprint at the start position. -/
def mkPlayer (startPosition : V2) (now : ℚ) : Player :=
  { position := startPosition, facing := ⟨0, -1⟩,
    flashlightDirection := ⟨0, -1⟩,
    footprints := addFootprint now startPosition [] }

/-- `Player.move`: translate, face along the (nonzero) delta, and drop
a footprint at the new position.  The source stores
`delta.normalize()`; the unnormalised delta denotes the same
direction. -/
def playerMove (delta : V2) (now : ℚ) (pl : Player) : Player :=
  { pl with
    position := pl.position.add delta,
    facing := if delta = ⟨0, 0⟩ then pl.facing
      else ⟨(delta.x : ℚ), (delta.y : ℚ)⟩,
    footprints := addFootprint now (pl.position.add delta) pl.footprints }

/-- `Player.setPosition`: position only — footprints are untouched. -/
def playerSetPosition (position : V2) (pl : Player) : Player :=
  { pl with position := position }

/-- `Player.setFlashlightDirection` (the source stores the normalised
vector; same direction). -/
def playerSetFlashlightDirection (direction : QV2) (pl : Player) : Player :=
  { pl with flashlightDirection := direction }

/-- `Player.rotateFlashlight`, with the rotation's cosine/sine pair
supplied by the caller (the source computes them from the angle;
rotation commutes with the scaling freedom of the stored direction). -/
def playerRotateFlashlight (c s : ℚ) (pl : Player) : Player :=
  { pl with flashlightDirection :=
      ⟨pl.flashlightDirection.x * c - pl.flashlightDirection.y * s,
       pl.flashlightDirection.x * s + pl.flashlightDirection.y * c⟩ }

/-- `Player.clearFootprints`: drop every entry, then seed one at the
current position.  (No caller in this repository invokes it.) -/
def clearFootprints (now : ℚ) (pl : Player) : Player :=
  { pl with footprints := addFootprint now pl.position [] }

/-- The fade curve of `Player.updateFootprints` (source lines:
`fadeProgress = age / FOOTPRINT_FADE_TIME`,
`fadeMultiplier = (cos(fadeProgress * π) + 1) / 2`,
`intensity = FOOTPRINT_MAX_INTENSITY * fadeMultiplier`). -/
noncomputable def footprintFadeIntensity (age : ℚ) : ℝ :=
  (FOOTPRINT_MAX_INTENSITY : ℝ) *
    ((Real.cos (((age / FOOTPRINT_FADE_TIME : ℚ) : ℝ) * Real.pi) + 1) / 2)

/-- `Player.updateFootprints`: entries aged past the fade window are
removed, the rest get the cosine-fade intensity.  The `deltaTime`
argument is accepted and, as in the source, unused (ages come from
timestamps and the ambient clock `now`). -/
noncomputable def updateFootprints (deltaTime : ℚ) (now : ℚ)
    (fps : List (Footprint ℝ)) : List (Footprint ℝ) :=
  fps.filterMap fun f =>
    if FOOTPRINT_FADE_TIME ≤ now - f.timestamp then none
    else some { f with intensity := footprintFadeIntensity (now - f.timestamp) }

/-- Ceiling square root: `⌈√n⌉`, the exact value of
`Math.ceil(Math.sqrt n)`. -/
def ceilSqrt (n : Nat) : Nat :=
  if Nat.sqrt n * Nat.sqrt n = n then Nat.sqrt n else Nat.sqrt n + 1

/-- One DDA sample of `hasLineOfSight`: the grid cell containing the
point `from + (to - from) · i/steps`. -/
def losSample (a b : V2) (i steps : Nat) : V2 :=
  ⟨Int.floor ((a.x : ℚ) + ((b.x - a.x : Int) : ℚ) * i / steps),
   Int.floor ((a.y : ℚ) + ((b.y - a.y : Int) : ℚ) * i / steps)⟩

/-- `Player.hasLineOfSight`: `⌈distance · 2⌉ = ⌈√(4·distSq)⌉` samples
along the segment, each floored to a cell, all of which must be
walkable.  (A simulation state always has a maze reference, so the
`maze == null` early-true branch of the source does not arise.) -/
def hasLineOfSight (mz : Maze) (a b : V2) : Prop :=
  ∀ i ∈ List.range (ceilSqrt (4 * (distSq a b).toNat)),
    isWalkable mz.width mz.height mz.grid
      (losSample a b (i + 1) (ceilSqrt (4 * (distSq a b).toNat)))

instance (mz : Maze) (a b : V2) : Decidable (hasLineOfSight mz a b) :=
  List.decidableBAll _ _

/-- The cone test of `isPositionIlluminated`, in exact algebraic form:
for `u ≠ 0` the source's `acos(clamp(f̂ · û)) ≤ π/6` is equivalent to
`f̂ · û ≥ cos(π/6) = √3/2`, i.e. `dot ≥ 0 ∧ 4·dot² ≥ 3·|f|²·|u|²`;
the `0 < |f|²` conjunct reproduces the source behaviour for the zero
direction vector (normalised zero → dot 0 → angle π/2 → outside). -/
def inConeAngle (f : QV2) (u : V2) : Prop :=
  0 < f.normSq ∧ 0 ≤ qdot f u ∧
    3 * f.normSq * ((u.normSq : Int) : ℚ) ≤ 4 * qdot f u ^ 2

instance (f : QV2) (u : V2) : Decidable (inConeAngle f u) :=
  inferInstanceAs (Decidable (_ ∧ _ ∧ _))

/-- `Player.isPositionIlluminated`: within range 4, not the observer's
own cell, inside the cone half-angle, and with line of sight.  The
range test `distance > 4 ∨ distance = 0` is embedded as
`distSq > 16 ∨ distSq = 0`, its exact equivalent. -/
def isPositionIlluminated (mz : Maze) (pl : Player) (position : V2) : Prop :=
  ¬(16 < (position.sub pl.position).normSq ∨ (position.sub pl.position).normSq = 0) ∧
    inConeAngle pl.flashlightDirection (position.sub pl.position) ∧
    hasLineOfSight mz pl.position position

instance (mz : Maze) (pl : Player) (position : V2) :
    Decidable (isPositionIlluminated mz pl position) :=
  inferInstanceAs (Decidable (_ ∧ _ ∧ _))

/-- The angle between the stored direction and the offset `u`, as the
source computes it: `acos` of the clamped normalised dot product. -/
noncomputable def coneAngleTo (f : QV2) (u : V2) : ℝ :=
  Real.arccos (max (-1) (min 1 ((qdot f u : ℝ) /
    (Real.sqrt ((f.normSq : ℚ) : ℝ) * Real.sqrt (((u.normSq : Int) : ℤ) : ℝ)))))

/-- `Player.getFlashlightIntensity`: zero unless illuminated, else
linear distance falloff times linear angular falloff
(`maxAngle = flashlightAngle/2 = π/6`). -/
noncomputable def getFlashlightIntensity (mz : Maze) (pl : Player)
    (position : V2) : ℝ :=
  if isPositionIlluminated mz pl position then
    max 0 (1 - Real.sqrt (((position.sub pl.position).normSq : ℤ) : ℝ) / 4) *
      max 0 (1 - coneAngleTo pl.flashlightDirection (position.sub pl.position) /
        (Real.pi / 6))
  else 0

/-- `Player.getAmbientLightIntensity`: radius `1.5`, line of sight,
quadratic falloff capped at `0.25`.  The range test `distance > 1.5`
is embedded as `4·distSq > 9`, its exact equivalent. -/
noncomputable def getAmbientLightIntensity (mz : Maze) (pl : Player)
    (position : V2) : ℝ :=
  if 9 < 4 * (position.sub pl.position).normSq then 0
  else if ¬ hasLineOfSight mz pl.position position then 0
  else (1 / 4 : ℝ) *
    (1 - Real.sqrt (((position.sub pl.position).normSq : ℤ) : ℝ) / (3 / 2)) ^ 2

/-- `Player.getFootprintLightIntensity`: the stored intensity of the
entry at the queried cell, `0` when there is none. -/
def getFootprintLightIntensity (pl : Player) (position : V2) : ℚ :=
  match pl.footprints.find? fun f => decide (f.pos = position) with
  | none => 0
  | some f => f.intensity

/-- `Player.getLightIntensity`: the maximum of the three sources. -/
noncomputable def getLightIntensity (mz : Maze) (pl : Player)
    (position : V2) : ℝ :=
  max (max (getFlashlightIntensity mz pl position)
    (getAmbientLightIntensity mz pl position))
    ((getFootprintLightIntensity pl position : ℚ) : ℝ)

/-! ## Simulation orchestrator (`src/simulation/GameSimulation.ts` and
`src/core/StateMachine.ts`)

The ambient `performance.now()` clock is modelled by a `clock` field
advanced by each `update` call and read when footprints are
timestamped; no claim in scope depends on its value.  The global
`Math.random()` stream and its cursor live in the state so that
`reset` can re-roll the pursuer spawn. -/

/-- The coarse game state (`GameState`). -/
inductive GameState where
  | exploring
  | paused
  | gameOver
  | victory
deriving DecidableEq, Repr

/-- `GameSimulation.isOnMainPath`: the candidate lies roughly along
the start→prize direction — `dot of normalised vectors > 0.7`, in the
exact squared form `dot > 0 ∧ 100·dot² > 49·|a|²·|b|²` (both sides
false for a zero vector, matching the source's `normalize()` of zero;
the float constant `0.7` is represented by `7/10`, which agrees with it
on every comparison in scope). -/
def isOnMainPath (mz : Maze) (position : V2) : Prop :=
  0 < V2.dot (mz.prizePosition.sub mz.startPosition)
      (position.sub mz.startPosition) ∧
    49 * (mz.prizePosition.sub mz.startPosition).normSq *
        (position.sub mz.startPosition).normSq <
      100 * V2.dot (mz.prizePosition.sub mz.startPosition)
        (position.sub mz.startPosition) ^ 2

/-- `GameSimulation.isMonsterPositionSafe`: a cell with at most two
walkable neighbours is safe only off the main path. -/
def isMonsterPositionSafe (mz : Maze) (monsterPos : V2) : Prop :=
  ((getAdjacentPositions mz.width mz.height monsterPos).filter fun p =>
      decide (isWalkable mz.width mz.height mz.grid p)).length ≤ 2 →
    ¬ isOnMainPath mz monsterPos

instance (mz : Maze) (p : V2) : Decidable (isOnMainPath mz p) :=
  inferInstanceAs (Decidable (_ ∧ _))

instance (mz : Maze) (p : V2) : Decidable (isMonsterPositionSafe mz p) :=
  inferInstanceAs (Decidable (_ → _))

/-- `GameSimulation.findMonsterStartPosition`: floor cells excluding
start and prize; distance-filtered (`≥ 5` from start, `≥ 3` from
prize, embedded as the squared comparisons `≥ 25` / `≥ 9`); safety-
filtered; with fallbacks exactly as in the source.  Returns the chosen
cell and the advanced random cursor. -/
def findMonsterStartPosition (mz : Maze) (rng : Nat → Nat) (k : Nat) :
    V2 × Nat :=
  match hfc : (allPositions mz.width mz.height).filter fun p =>
      decide (mz.grid p = CellType.floor ∧ p ≠ mz.startPosition ∧
        p ≠ mz.prizePosition) with
  | [] => (⟨mz.width - 3, mz.height - 3⟩, k)
  | c :: cs =>
    let validCells := (c :: cs).filter fun p =>
      decide (25 ≤ distSq mz.startPosition p ∧ 9 ≤ distSq mz.prizePosition p)
    let safeCells := validCells.filter fun p =>
      decide (isMonsterPositionSafe mz p)
    let candidateCells := if 0 < safeCells.length then safeCells else validCells
    match candidateCells with
    | [] => ((c :: cs).getD (rng k % (c :: cs).length) c, k + 1)
    | d :: ds => ((d :: ds).getD (rng k % (d :: ds).length) d, k + 1)

/-- The orchestrator state. -/
structure GameSimulation where
  maze : Maze
  player : Player
  monster : Monster
  gameState : GameState
  godMode : Bool
  lastUpdateTime : ℚ
  clock : ℚ
  rng : Nat → Nat
  rngIx : Nat

/-- The `GameSimulation` constructor (the source defaults both maze
dimensions to 21): maze, player at the maze start, pursuer at the
placement-contract spawn with speed 1200, state `exploring`. -/
def mkGameSimulation (w h : Int) (rng : Nat → Nat) : GameSimulation :=
  { maze := (mkMaze w h rng).1,
    player := mkPlayer (mkMaze w h rng).1.startPosition 0,
    monster := mkMonster (findMonsterStartPosition (mkMaze w h rng).1 rng
      (mkMaze w h rng).2).1 1200,
    gameState := GameState.exploring, godMode := false, lastUpdateTime := 0,
    clock := 0, rng := rng,
    rngIx := (findMonsterStartPosition (mkMaze w h rng).1 rng (mkMaze w h rng).2).2 }

/-- `GameSimulation.update`: accumulate time; no-op outside
`exploring`; advance the pursuer with the player position and the
illumination sample at the player's own position; capture check, then
— only if no capture — the win check (`checkWinCondition`). -/
noncomputable def simUpdate (deltaTime : ℚ) (s : GameSimulation) :
    GameSimulation :=
  let s0 := { s with lastUpdateTime := s.lastUpdateTime + deltaTime,
                     clock := s.clock + deltaTime }
  if s0.gameState ≠ GameState.exploring then s0
  else
    let m1 := monsterUpdate s0.maze deltaTime s0.player.position
      (getLightIntensity s0.maze s0.player s0.player.position) s0.monster
    if hasCaughtPlayer m1 s0.player.position then
      { s0 with monster := m1, gameState := GameState.gameOver }
    else if s0.player.position = s0.maze.prizePosition then
      { s0 with monster := m1, gameState := GameState.victory }
    else { s0 with monster := m1 }

/-- `GameSimulation.movePlayer`: move one step iff the destination
cell is walkable; returns whether the move occurred. -/
def simMovePlayer (direction : V2) (s : GameSimulation) :
    GameSimulation × Bool :=
  if isWalkable s.maze.width s.maze.height s.maze.grid
      (s.player.position.add direction) then
    ({ s with player := playerMove direction s.clock s.player }, true)
  else (s, false)

/-- `GameSimulation.reset`: player back to start facing up, pursuer
re-rolled through the placement contract, state back to `exploring`.
(The source does not touch the footprint trail.) -/
def simReset (s : GameSimulation) : GameSimulation :=
  { s with
    player := playerSetFlashlightDirection ⟨0, -1⟩
      (playerSetPosition s.maze.startPosition s.player),
    monster := resetPosition (findMonsterStartPosition s.maze s.rng s.rngIx).1
      s.monster,
    gameState := GameState.exploring,
    rngIx := (findMonsterStartPosition s.maze s.rng s.rngIx).2 }

/-- `GameSimulation.togglePause`. -/
def simTogglePause (s : GameSimulation) : GameSimulation :=
  if s.gameState = GameState.exploring then
    { s with gameState := GameState.paused }
  else if s.gameState = GameState.paused then
    { s with gameState := GameState.exploring }
  else s

/-- `GameSimulation.toggleGodMode`. -/
def simToggleGodMode (s : GameSimulation) : GameSimulation :=
  { s with godMode := ! s.godMode }

/-- `GameSimulation.setFlashlightDirection`. -/
def simSetFlashlightDirection (direction : QV2) (s : GameSimulation) :
    GameSimulation :=
  { s with player := playerSetFlashlightDirection direction s.player }

/-- `GameSimulation.rotateFlashlight` (rotation cosine/sine pair
supplied, see `playerRotateFlashlight`). -/
def simRotateFlashlight (c sn : ℚ) (s : GameSimulation) : GameSimulation :=
  { s with player := playerRotateFlashlight c sn s.player }

/-- `GameSimulation.getVisibleCells`, parametrised over the cell list
and written against the player's illumination function: in god mode
every cell appears, dimly (`0.2`, embedded `1/5`) when its true
illumination is zero; otherwise only positively-illuminated cells
appear, with their true intensity. -/
noncomputable def getVisibleCells (s : GameSimulation) : List (V2 × ℝ) :=
  if s.godMode then
    (allPositions s.maze.width s.maze.height).map fun p =>
      (p, if 0 < getLightIntensity s.maze s.player p then
        getLightIntensity s.maze s.player p else (1 / 5 : ℝ))
  else
    (allPositions s.maze.width s.maze.height).filterMap fun p =>
      if 0 < getLightIntensity s.maze s.player p then
        some (p, getLightIntensity s.maze s.player p)
      else none

/-! ## The per-frame command machine (external interface of §6) -/

/-- The commands the simulation accepts from the input layer, plus the
per-frame `update`. -/
inductive Cmd where
  | update (dt : ℚ)
  | move (direction : V2)
  | reset
  | togglePause
  | toggleGodMode
  | setFlashlight (direction : QV2)
  | rotate (c sn : ℚ)

/-- One command applied to the simulation state. -/
noncomputable def runCmd : Cmd → GameSimulation → GameSimulation
  | Cmd.update dt, s => simUpdate dt s
  | Cmd.move d, s => (simMovePlayer d s).1
  | Cmd.reset, s => simReset s
  | Cmd.togglePause, s => simTogglePause s
  | Cmd.toggleGodMode, s => simToggleGodMode s
  | Cmd.setFlashlight d, s => simSetFlashlightDirection d s
  | Cmd.rotate c sn, s => simRotateFlashlight c sn s

/-- A whole session: a sequence of commands from a fresh simulation. -/
noncomputable def runCmds : List Cmd → GameSimulation → GameSimulation
  | [], s => s
  | c :: cs, s => runCmds cs (runCmd c s)

/-- The pursuer-position invariant: the maze is the constructed one and
the pursuer stands on a walkable cell of it. -/
def MonsterInv (mz0 : Maze) (s : GameSimulation) : Prop :=
  s.maze = mz0 ∧ isWalkable mz0.width mz0.height mz0.grid s.monster.position

/-! ## Concrete fixtures for witnesses and counterexamples -/

/-- A straight 17-cell corridor maze: floor exactly on
`(1..17, 1)` in a 19×3 grid. -/
def corridorMaze : Maze :=
  { width := 19, height := 3,
    grid := fun p =>
      if p.y = 1 ∧ 1 ≤ p.x ∧ p.x ≤ 17 then CellType.floor else CellType.wall,
    startPosition := ⟨1, 1⟩, prizePosition := ⟨17, 1⟩ }

/-- A maze with no walkable cell at all. -/
def allWallMaze : Maze :=
  { width := 5, height := 5, grid := fun _ => CellType.wall,
    startPosition := ⟨1, 1⟩, prizePosition := ⟨3, 3⟩ }

/-- Simulation fixture on the corridor maze: player at the corridor's
near end, pursuer at its far end. -/
def corridorSim : GameSimulation :=
  { maze := corridorMaze, player := mkPlayer ⟨1, 1⟩ 0,
    monster := mkMonster ⟨17, 1⟩ 1200, gameState := GameState.exploring,
    godMode := false, lastUpdateTime := 0, clock := 0,
    rng := fun _ => 0, rngIx := 0 }

/-- A game-over state in which the player has walked three cells and
left three footprint entries. -/
def resetFixture : GameSimulation :=
  { maze := corridorMaze,
    player :=
      { position := ⟨3, 1⟩, facing := ⟨1, 0⟩,
        flashlightDirection := ⟨0, -1⟩,
        footprints := [⟨⟨1, 1⟩, 0, FOOTPRINT_MAX_INTENSITY⟩,
          ⟨⟨2, 1⟩, 200, FOOTPRINT_MAX_INTENSITY⟩,
          ⟨⟨3, 1⟩, 400, FOOTPRINT_MAX_INTENSITY⟩] },
    monster := mkMonster ⟨17, 1⟩ 1200, gameState := GameState.gameOver,
    godMode := false, lastUpdateTime := 1000, clock := 1000,
    rng := fun _ => 0, rngIx := 0 }

/-- An exploring state with the player standing on the prize cell and
the pursuer on the same cell (current target already recorded, so the
next tick neither recomputes nor moves). -/
def capturePrizeSim : GameSimulation :=
  { maze := corridorMaze, player := mkPlayer ⟨17, 1⟩ 0,
    monster :=
      { position := ⟨17, 1⟩, speed := 1200, lastMoveTime := 0,
        isActive := true, fearOfLight := true, path := [],
        lastPlayerPosition := ⟨17, 1⟩, recalculatePathTimer := 0 },
    gameState := GameState.exploring,
    godMode := false, lastUpdateTime := 0, clock := 0,
    rng := fun _ => 0, rngIx := 0 }

/-- A pursuer with fear of light, a queued step, and a fresh target
record, standing nine cells away from the player. -/
def fearMonster : Monster :=
  { position := ⟨1, 1⟩, speed := 800, lastMoveTime := 0, isActive := true,
    fearOfLight := true, path := [⟨2, 1⟩], lastPlayerPosition := ⟨10, 1⟩,
    recalculatePathTimer := 0 }

/-- A player who left a footprint at a cell nine cells away from where
they now stand, aiming the flashlight away from it. -/
def farFootprintPlayer : Player :=
  { position := ⟨1, 1⟩, facing := ⟨0, -1⟩, flashlightDirection := ⟨0, -1⟩,
    footprints := [⟨⟨10, 1⟩, 0, FOOTPRINT_MAX_INTENSITY⟩] }

/-- Modelled from the spec's words of claim C3, for comparison with
the source's `monsterSpeedModifier`: the movement-interval multiplier
decided by the light-intensity sample supplied to the update call. -/
noncomputable def speedModifierClaimed (fearOfLight : Bool)
    (suppliedIntensity : ℝ) : ℚ :=
  if fearOfLight = true ∧ 1 / 2 < suppliedIntensity then 2 else 1

theorem walkPres_refl (g : Grid) : WalkPres g g := fun _ h => h

theorem walkPres_trans {g₁ g₂ g₃ : Grid} (h₁ : WalkPres g₁ g₂)
    (h₂ : WalkPres g₂ g₃) : WalkPres g₁ g₃ :=
  fun p h => h₂ p (h₁ p h)

theorem walkPres_setCellType (w h : Int) (g : Grid) (p : V2) {t : CellType}
    (ht : t ≠ CellType.wall) : WalkPres g (setCellType w h g p t) := by
  intro q hq
  unfold setCellType
  split
  · exact ht
  · exact hq

theorem isWalkable_mono {w h : Int} {g g' : Grid} (hp : WalkPres g g')
    {p : V2} (hw : isWalkable w h g p) : isWalkable w h g' p :=
  ⟨hw.1, hp p hw.2⟩

theorem step_mono {w h : Int} {g g' : Grid} (hp : WalkPres g g')
    {p q : V2} (hs : Step w h g p q) : Step w h g' p q :=
  ⟨hs.1, isWalkable_mono hp hs.2⟩

theorem reach_mono {w h : Int} {g g' : Grid} (hp : WalkPres g g')
    {p q : V2} (hr : Reach w h g p q) : Reach w h g' p q :=
  Relation.ReflTransGen.mono (fun _ _ hs => step_mono hp hs) hr

theorem reach_step {w h : Int} {g : Grid} {p q r : V2}
    (hr : Reach w h g p q) (hs : Step w h g q r) : Reach w h g p r :=
  Relation.ReflTransGen.tail hr hs

/-- Membership in the adjacency list, unfolded. -/
theorem mem_getAdjacentPositions {w h : Int} {p q : V2} :
    q ∈ getAdjacentPositions w h p ↔
      (∃ d ∈ directions4, q = p.add d) ∧ isValidPosition w h q := by
  unfold getAdjacentPositions
  simp [List.mem_filter, List.mem_map, eq_comm]

/-- Adjacency is symmetric between valid positions. -/
theorem adjacent_symm {w h : Int} {p q : V2}
    (hq : q ∈ getAdjacentPositions w h p) (hp : isValidPosition w h p) :
    p ∈ getAdjacentPositions w h q := by
  rw [mem_getAdjacentPositions] at hq ⊢
  obtain ⟨⟨d, hd, hqd⟩, hval⟩ := hq
  refine ⟨⟨⟨-d.x, -d.y⟩, ?_, ?_⟩, hp⟩
  · simp only [directions4, List.mem_cons, List.not_mem_nil, or_false] at hd ⊢
    rcases hd with h1 | h1 | h1 | h1 <;> subst h1 <;> simp
  · subst hqd
    simp [V2.add]

/-! ## Generation invariant: every walkable cell is reachable from the
start

Each write of the generator either carves a floor pair connected to an
already-reachable cell, opens a wall adjacent to at least two floors,
or retypes an already-walkable cell.  All of them preserve the
invariant below, which yields the start-to-prize path of claim C1. -/

theorem V2.eq_iff {a b : V2} : a = b ↔ a.x = b.x ∧ a.y = b.y := by
  cases a; cases b; simp [V2.mk.injEq]

@[simp] theorem V2.mk_x (a b : Int) : (V2.mk a b).x = a := rfl

@[simp] theorem V2.mk_y (a b : Int) : (V2.mk a b).y = b := rfl

@[simp] theorem V2.add_x (a b : V2) : (a.add b).x = a.x + b.x := rfl

@[simp] theorem V2.add_y (a b : V2) : (a.add b).y = a.y + b.y := rfl

theorem setCellType_self {w h : Int} {g : Grid} {p : V2} {t : CellType}
    (hp : isValidPosition w h p) : setCellType w h g p t p = t := by
  simp [setCellType, hp]

theorem setCellType_ne {w h : Int} {g : Grid} {p q : V2} {t : CellType}
    (hq : q ≠ p) : setCellType w h g p t q = g q := by
  simp [setCellType, hq]

/-- Retyping a non-wall cell with a non-wall type keeps the invariant
(used for the `start`/`prize` markings). -/
theorem inv_retype {w h : Int} {g : Grid} {p : V2} {t : CellType}
    (hInv : Inv w h g) (ht : t ≠ CellType.wall) (hp : g p ≠ CellType.wall) :
    Inv w h (setCellType w h g p t) := by
  have hpres : WalkPres g (setCellType w h g p t) := walkPres_setCellType w h g p ht
  intro r hr
  by_cases hrp : r = p
  · subst hrp
    exact reach_mono hpres (hInv r ⟨hr.1, hp⟩)
  · have hgr : g r ≠ CellType.wall := by
      rw [← setCellType_ne (g := g) (t := t) hrp]; exact hr.2
    exact reach_mono hpres (hInv r ⟨hr.1, hgr⟩)

/-- Opening a single cell adjacent to a walkable cell keeps the
invariant (the two connection passes). -/
theorem inv_set_floor {w h : Int} {g : Grid} {p : V2}
    (hInv : Inv w h g) (hp : isValidPosition w h p)
    (hadj : ∃ q ∈ getAdjacentPositions w h p, isWalkable w h g q) :
    Inv w h (setCellType w h g p CellType.floor) := by
  obtain ⟨q, hq, hqw⟩ := hadj
  have hpres : WalkPres g (setCellType w h g p CellType.floor) :=
    walkPres_setCellType w h g p (by simp)
  have hreachq : Reach w h (setCellType w h g p CellType.floor) start11 q :=
    reach_mono hpres (hInv q hqw)
  have hpq : p ∈ getAdjacentPositions w h q := adjacent_symm hq hp
  have hreachp : Reach w h (setCellType w h g p CellType.floor) start11 p :=
    reach_step hreachq ⟨hpq, hp, by rw [setCellType_self hp]; simp⟩
  intro r hr
  by_cases hrp : r = p
  · subst hrp; exact hreachp
  · have hgr : g r ≠ CellType.wall := by
      rw [← setCellType_ne (g := g) (t := CellType.floor) hrp]; exact hr.2
    exact reach_mono hpres (hInv r ⟨hr.1, hgr⟩)

/-- Carving a floor pair (neighbour cell plus the wall between) keeps
the invariant: `m` is adjacent to the walkable cell `c` and `n` is
adjacent to `m`. -/
theorem inv_carve_set {w h : Int} {g : Grid} {c n m : V2}
    (hInv : Inv w h g) (hc : isWalkable w h g c)
    (hm : m ∈ getAdjacentPositions w h c) (hn : n ∈ getAdjacentPositions w h m)
    (hnm : n ≠ m) :
    Inv w h (setCellType w h (setCellType w h g n CellType.floor) m
      CellType.floor) := by
  set g2 := setCellType w h (setCellType w h g n CellType.floor) m CellType.floor
    with hg2
  have hmval : isValidPosition w h m := (mem_getAdjacentPositions.mp hm).2
  have hnval : isValidPosition w h n := (mem_getAdjacentPositions.mp hn).2
  have hpres : WalkPres g g2 :=
    walkPres_trans (walkPres_setCellType w h g n (by simp))
      (walkPres_setCellType w h _ m (by simp))
  have hg2m : g2 m = CellType.floor := by rw [hg2, setCellType_self hmval]
  have hg2n : g2 n = CellType.floor := by
    rw [hg2, setCellType_ne hnm, setCellType_self hnval]
  have hreachm : Reach w h g2 start11 m :=
    reach_step (reach_mono hpres (hInv c hc)) ⟨hm, hmval, by rw [hg2m]; simp⟩
  have hreachn : Reach w h g2 start11 n :=
    reach_step hreachm ⟨hn, hnval, by rw [hg2n]; simp⟩
  intro r hr
  by_cases hrm : r = m
  · subst hrm; exact hreachm
  by_cases hrn : r = n
  · subst hrn; exact hreachn
  · have : g2 r = g r := by rw [hg2, setCellType_ne hrm, setCellType_ne hrn]
    exact reach_mono hpres (hInv r ⟨hr.1, this ▸ hr.2⟩)

/-- Membership in the carve neighbour list, unfolded. -/
theorem mem_getUnvisitedNeighbors {w h : Int} {visited : List V2} {c n : V2} :
    n ∈ getUnvisitedNeighbors w h visited c ↔
      (∃ d ∈ carveDirections, n = c.add d) ∧ isValidPosition w h n ∧
        0 < n.x ∧ n.x < w - 1 ∧ 0 < n.y ∧ n.y < h - 1 ∧ n ∉ visited := by
  unfold getUnvisitedNeighbors
  constructor
  · intro hmem
    rw [List.mem_filter] at hmem
    obtain ⟨hmap, hpred⟩ := hmem
    rw [List.mem_map] at hmap
    obtain ⟨d, hd, hdn⟩ := hmap
    rw [decide_eq_true_eq] at hpred
    exact ⟨⟨d, hd, hdn.symm⟩, hpred⟩
  · rintro ⟨⟨d, hd, rfl⟩, hrest⟩
    rw [List.mem_filter]
    exact ⟨List.mem_map.mpr ⟨d, hd, rfl⟩, decide_eq_true_eq.mpr hrest⟩

/-- Geometry of one carve step: the wall-between cell is a valid
4-neighbour of the current cell, the chosen neighbour is a valid
4-neighbour of the wall-between cell, and the three cells are
pairwise distinct. -/
theorem carve_geometry_case {w h : Int} {c : V2} (d half : V2)
    (hhalf : half ∈ directions4)
    (hmid : wallBetween c (c.add d) = c.add half)
    (hmid2 : c.add d = (c.add half).add half)
    (hvmid : isValidPosition w h (c.add half))
    (hvn : isValidPosition w h (c.add d))
    (hne : c.add d ≠ c.add half) :
    wallBetween c (c.add d) ∈ getAdjacentPositions w h c ∧
      c.add d ∈ getAdjacentPositions w h (wallBetween c (c.add d)) ∧
      c.add d ≠ wallBetween c (c.add d) := by
  rw [hmid]
  exact ⟨mem_getAdjacentPositions.mpr ⟨⟨half, hhalf, rfl⟩, hvmid⟩,
    mem_getAdjacentPositions.mpr ⟨⟨half, hhalf, hmid2⟩, hvn⟩, hne⟩

theorem carve_geometry {w h : Int} {visited : List V2} {c n : V2}
    (hc : isValidPosition w h c) (hn : n ∈ getUnvisitedNeighbors w h visited c) :
    wallBetween c n ∈ getAdjacentPositions w h c ∧
      n ∈ getAdjacentPositions w h (wallBetween c n) ∧ n ≠ wallBetween c n := by
  rw [mem_getUnvisitedNeighbors] at hn
  obtain ⟨⟨d, hd, rfl⟩, hval, hx0, hxw, hy0, hyh, _⟩ := hn
  simp only [carveDirections, List.mem_cons, List.not_mem_nil, or_false] at hd
  obtain ⟨hcx0, hcxw, hcy0, hcyh⟩ := hc
  rcases hd with rfl | rfl | rfl | rfl <;>
    simp only [isValidPosition, V2.add_x, V2.add_y, V2.mk_x, V2.mk_y]
      at hval hx0 hxw hy0 hyh <;>
    obtain ⟨hnx0, hnxw, hny0, hnyh⟩ := hval
  · exact carve_geometry_case _ ⟨0, -1⟩ (by simp [directions4])
      (by rw [V2.eq_iff]
          simp only [wallBetween, V2.add_x, V2.add_y, V2.mk_x, V2.mk_y]; omega)
      (by rw [V2.eq_iff]
          simp only [V2.add_x, V2.add_y, V2.mk_x, V2.mk_y]; omega)
      (by simp only [isValidPosition, V2.add_x, V2.add_y, V2.mk_x, V2.mk_y]; omega)
      (by simp only [isValidPosition, V2.add_x, V2.add_y, V2.mk_x, V2.mk_y]; omega)
      (by rw [ne_eq, V2.eq_iff]
          simp only [V2.add_x, V2.add_y, V2.mk_x, V2.mk_y]; omega)
  · exact carve_geometry_case _ ⟨1, 0⟩ (by simp [directions4])
      (by rw [V2.eq_iff]
          simp only [wallBetween, V2.add_x, V2.add_y, V2.mk_x, V2.mk_y]; omega)
      (by rw [V2.eq_iff]
          simp only [V2.add_x, V2.add_y, V2.mk_x, V2.mk_y]; omega)
      (by simp only [isValidPosition, V2.add_x, V2.add_y, V2.mk_x, V2.mk_y]; omega)
      (by simp only [isValidPosition, V2.add_x, V2.add_y, V2.mk_x, V2.mk_y]; omega)
      (by rw [ne_eq, V2.eq_iff]
          simp only [V2.add_x, V2.add_y, V2.mk_x, V2.mk_y]; omega)
  · exact carve_geometry_case _ ⟨0, 1⟩ (by simp [directions4])
      (by rw [V2.eq_iff]
          simp only [wallBetween, V2.add_x, V2.add_y, V2.mk_x, V2.mk_y]; omega)
      (by rw [V2.eq_iff]
          simp only [V2.add_x, V2.add_y, V2.mk_x, V2.mk_y]; omega)
      (by simp only [isValidPosition, V2.add_x, V2.add_y, V2.mk_x, V2.mk_y]; omega)
      (by simp only [isValidPosition, V2.add_x, V2.add_y, V2.mk_x, V2.mk_y]; omega)
      (by rw [ne_eq, V2.eq_iff]
          simp only [V2.add_x, V2.add_y, V2.mk_x, V2.mk_y]; omega)
  · exact carve_geometry_case _ ⟨-1, 0⟩ (by simp [directions4])
      (by rw [V2.eq_iff]
          simp only [wallBetween, V2.add_x, V2.add_y, V2.mk_x, V2.mk_y]; omega)
      (by rw [V2.eq_iff]
          simp only [V2.add_x, V2.add_y, V2.mk_x, V2.mk_y]; omega)
      (by simp only [isValidPosition, V2.add_x, V2.add_y, V2.mk_x, V2.mk_y]; omega)
      (by simp only [isValidPosition, V2.add_x, V2.add_y, V2.mk_x, V2.mk_y]; omega)
      (by rw [ne_eq, V2.eq_iff]
          simp only [V2.add_x, V2.add_y, V2.mk_x, V2.mk_y]; omega)

theorem floorPres_refl (g : Grid) : FloorPres g g := fun _ hp => hp

theorem floorPres_trans {g₁ g₂ g₃ : Grid} (h₁ : FloorPres g₁ g₂)
    (h₂ : FloorPres g₂ g₃) : FloorPres g₁ g₃ :=
  fun p hp => h₂ p (h₁ p hp)

theorem floorPres_setFloor (w h : Int) (g : Grid) (p : V2) :
    FloorPres g (setCellType w h g p CellType.floor) := by
  intro q hq
  unfold setCellType
  split
  · rfl
  · exact hq

theorem carveLoop_floorPres (w h : Int) (rng : Nat → Nat) :
    ∀ (fuel : Nat) (g : Grid) (stack visited : List V2) (k : Nat),
      FloorPres g (carveLoop w h rng fuel g stack visited k).1 := by
  intro fuel
  induction fuel with
  | zero => intro g stack visited k; exact floorPres_refl g
  | succ n ih =>
    intro g stack visited k
    cases stack with
    | nil => exact floorPres_refl g
    | cons current rest =>
      simp only [carveLoop]
      split
      · exact ih g rest visited k
      · exact floorPres_trans
          (floorPres_trans (floorPres_setFloor w h g _) (floorPres_setFloor w h _ _))
          (ih _ _ _ _)

theorem carveLoop_walkPres (w h : Int) (rng : Nat → Nat) :
    ∀ (fuel : Nat) (g : Grid) (stack visited : List V2) (k : Nat),
      WalkPres g (carveLoop w h rng fuel g stack visited k).1 := by
  intro fuel
  induction fuel with
  | zero => intro g stack visited k; exact walkPres_refl g
  | succ n ih =>
    intro g stack visited k
    cases stack with
    | nil => exact walkPres_refl g
    | cons current rest =>
      simp only [carveLoop]
      split
      · exact ih g rest visited k
      · exact walkPres_trans
          (walkPres_trans (walkPres_setCellType w h g _ (by simp))
            (walkPres_setCellType w h _ _ (by simp)))
          (ih _ _ _ _)

/-- The carve loop keeps the reachability invariant, provided every
stack entry is walkable (true initially: the stack holds the start). -/
theorem carveLoop_inv (w h : Int) (rng : Nat → Nat) :
    ∀ (fuel : Nat) (g : Grid) (stack visited : List V2) (k : Nat),
      Inv w h g → (∀ p ∈ stack, isWalkable w h g p) →
      Inv w h (carveLoop w h rng fuel g stack visited k).1 := by
  intro fuel
  induction fuel with
  | zero => intro g stack visited k hInv _; exact hInv
  | succ n ih =>
    intro g stack visited k hInv hstack
    cases stack with
    | nil => exact hInv
    | cons current rest =>
      simp only [carveLoop]
      split
      · exact ih g rest visited k hInv fun p hp => hstack p (List.mem_cons_of_mem _ hp)
      · rename_i hns
        set ns := getUnvisitedNeighbors w h visited current with hnsdef
        have hcur : isWalkable w h g current := hstack current (List.mem_cons_self _ _)
        have hnextmem : ns.get ⟨rng k % ns.length, Nat.mod_lt _ (List.length_pos.mpr hns)⟩ ∈ ns :=
          List.get_mem _ _ _
        set next := ns.get ⟨rng k % ns.length, Nat.mod_lt _ (List.length_pos.mpr hns)⟩
          with hnext
        obtain ⟨hmadj, hnadj, hnm⟩ := carve_geometry hcur.1 hnextmem
        have hnval : isValidPosition w h next :=
          (mem_getUnvisitedNeighbors.mp hnextmem).2.1
        have hInv2 := inv_carve_set hInv hcur hmadj hnadj hnm
        have hpres : WalkPres g (setCellType w h (setCellType w h g next
            CellType.floor) (wallBetween current next) CellType.floor) :=
          walkPres_trans (walkPres_setCellType w h g _ (by simp))
            (walkPres_setCellType w h _ _ (by simp))
        apply ih _ _ _ _ hInv2
        intro p hp
        rcases List.mem_cons.mp hp with rfl | hp2
        · refine ⟨hnval, ?_⟩
          rw [setCellType_ne hnm, setCellType_self hnval]
          simp
        · exact isWalkable_mono hpres (hstack p hp2)

/-- An adjacent-floor count of at least two yields a walkable
neighbour. -/
theorem exists_adjacent_walkable {w h : Int} {g : Grid} {p : V2}
    (hcount : 2 ≤ adjacentFloorCount w h g p) :
    ∃ q ∈ getAdjacentPositions w h p, isWalkable w h g q := by
  unfold adjacentFloorCount at hcount
  have hpos : 0 < ((getAdjacentPositions w h p).filter fun q =>
      decide (g q = CellType.floor)).length := by omega
  obtain ⟨q, hq⟩ := List.exists_mem_of_length_pos hpos
  rw [List.mem_filter] at hq
  have hfl : g q = CellType.floor := decide_eq_true_eq.mp hq.2
  exact ⟨q, hq.1, (mem_getAdjacentPositions.mp hq.1).2, by rw [hfl]; simp⟩

theorem randomInterior_valid {w h : Int} (rng : Nat → Nat) (k : Nat)
    (hw : 5 ≤ w) (hh : 5 ≤ h) : isValidPosition w h (randomInterior w h rng k) := by
  unfold randomInterior isValidPosition
  have h1 : 0 ≤ (rng k : Int) % (w - 2) := Int.emod_nonneg _ (by omega)
  have h2 : (rng k : Int) % (w - 2) < w - 2 := Int.emod_lt_of_pos _ (by omega)
  have h3 : 0 ≤ (rng (k + 1) : Int) % (h - 2) := Int.emod_nonneg _ (by omega)
  have h4 : (rng (k + 1) : Int) % (h - 2) < h - 2 := Int.emod_lt_of_pos _ (by omega)
  simp only [V2.mk_x, V2.mk_y]
  omega

theorem addRandomConnectionsLoop_inv (w h : Int) (rng : Nat → Nat)
    (hw : 5 ≤ w) (hh : 5 ≤ h) :
    ∀ (i : Nat) (g : Grid) (k : Nat), Inv w h g →
      Inv w h (addRandomConnectionsLoop w h rng i g k).1 := by
  intro i
  induction i with
  | zero => intro g k hInv; exact hInv
  | succ n ih =>
    intro g k hInv
    simp only [addRandomConnectionsLoop]
    split
    · rename_i hcond
      exact ih _ _ (inv_set_floor hInv (randomInterior_valid rng k hw hh)
        (exists_adjacent_walkable hcond.1))
    · exact ih _ _ hInv

theorem addRandomConnectionsLoop_floorPres (w h : Int) (rng : Nat → Nat) :
    ∀ (i : Nat) (g : Grid) (k : Nat),
      FloorPres g (addRandomConnectionsLoop w h rng i g k).1 := by
  intro i
  induction i with
  | zero => intro g k; exact floorPres_refl g
  | succ n ih =>
    intro g k
    simp only [addRandomConnectionsLoop]
    split
    · exact floorPres_trans (floorPres_setFloor w h g _) (ih _ _)
    · exact ih _ _

theorem addStrategicConnectionsLoop_inv (w h : Int) (rng : Nat → Nat)
    (hw : 5 ≤ w) (hh : 5 ≤ h) :
    ∀ (i : Nat) (g : Grid) (k : Nat), Inv w h g →
      Inv w h (addStrategicConnectionsLoop w h rng i g k).1 := by
  intro i
  induction i with
  | zero => intro g k hInv; exact hInv
  | succ n ih =>
    intro g k hInv
    simp only [addStrategicConnectionsLoop]
    split
    · rename_i hcond
      exact ih _ _ (inv_set_floor hInv (randomInterior_valid rng k hw hh)
        (exists_adjacent_walkable hcond.2))
    · exact ih _ _ hInv

theorem addStrategicConnectionsLoop_floorPres (w h : Int) (rng : Nat → Nat) :
    ∀ (i : Nat) (g : Grid) (k : Nat),
      FloorPres g (addStrategicConnectionsLoop w h rng i g k).1 := by
  intro i
  induction i with
  | zero => intro g k; exact floorPres_refl g
  | succ n ih =>
    intro g k
    simp only [addStrategicConnectionsLoop]
    split
    · exact floorPres_trans (floorPres_setFloor w h g _) (ih _ _)
    · exact ih _ _

/-- `(1,1)` is in bounds for any grid of the supported minimum size. -/
theorem start11_valid {w h : Int} (hw : 5 ≤ w) (hh : 5 ≤ h) :
    isValidPosition w h start11 := by
  unfold isValidPosition start11
  simp only [V2.mk_x, V2.mk_y]
  omega

/-- The whole generator keeps the reachability invariant. -/
theorem generateSimpleMaze_inv (w h : Int) (rng : Nat → Nat)
    (hw : 5 ≤ w) (hh : 5 ≤ h) (g0 : Grid) (k0 : Nat) (hInv : Inv w h g0) :
    Inv w h (generateSimpleMaze w h rng g0 k0).1 := by
  have hInv1 : Inv w h (setCellType w h g0 start11 CellType.floor) := by
    intro r hr
    by_cases hrs : r = start11
    · subst hrs; exact Relation.ReflTransGen.refl
    · have hgr : g0 r ≠ CellType.wall := by
        rw [← setCellType_ne (g := g0) (t := CellType.floor) hrs]; exact hr.2
      exact reach_mono (walkPres_setCellType w h g0 start11 (by simp))
        (hInv r ⟨hr.1, hgr⟩)
  have hstack : ∀ p ∈ [start11],
      isWalkable w h (setCellType w h g0 start11 CellType.floor) p := by
    intro p hp
    rw [List.mem_singleton] at hp
    subst hp
    refine ⟨start11_valid hw hh, ?_⟩
    rw [setCellType_self (start11_valid hw hh)]
    simp
  unfold generateSimpleMaze
  exact addStrategicConnectionsLoop_inv w h rng hw hh _ _ _
    (addRandomConnectionsLoop_inv w h rng hw hh _ _ _
      (carveLoop_inv w h rng _ _ _ _ _ hInv1 hstack))

theorem generateSimpleMaze_floorPres (w h : Int) (rng : Nat → Nat)
    (g0 : Grid) (k0 : Nat) :
    FloorPres (setCellType w h g0 start11 CellType.floor)
      (generateSimpleMaze w h rng g0 k0).1 := by
  unfold generateSimpleMaze
  exact floorPres_trans (carveLoop_floorPres w h rng _ _ _ _ _)
    (floorPres_trans (addRandomConnectionsLoop_floorPres w h rng _ _ _)
      (addStrategicConnectionsLoop_floorPres w h rng _ _ _))

/-! ## Existence of carved floor cells and prize selection -/

/-- Adjacent cells are distinct (all four offsets are nonzero). -/
theorem adjacent_ne {w h : Int} {p q : V2}
    (hq : q ∈ getAdjacentPositions w h p) : q ≠ p := by
  rw [mem_getAdjacentPositions] at hq
  obtain ⟨⟨d, hd, rfl⟩, _⟩ := hq
  simp only [directions4, List.mem_cons, List.not_mem_nil, or_false] at hd
  rcases hd with rfl | rfl | rfl | rfl <;>
    (rw [ne_eq, V2.eq_iff]; simp only [V2.add_x, V2.add_y, V2.mk_x, V2.mk_y]; omega)

/-- For a grid of the minimum supported size, the start cell has an
unvisited carve neighbour, so the first carve iteration always fires. -/
theorem getUnvisitedNeighbors_start_ne_nil {w h : Int} (hw : 5 ≤ w) (hh : 5 ≤ h) :
    getUnvisitedNeighbors w h [start11] start11 ≠ [] := by
  apply List.ne_nil_of_mem (a := V2.mk 3 1)
  rw [mem_getUnvisitedNeighbors]
  refine ⟨⟨⟨2, 0⟩, by simp [carveDirections], by rw [V2.eq_iff]; simp [start11]⟩,
    ?_, ?_, ?_, ?_, ?_, ?_⟩ <;>
    simp [isValidPosition, start11, V2.eq_iff] <;> omega

/-- The first carve iteration from the start leaves two distinct
non-start floor cells in the final carved grid. -/
theorem carveLoop_start_two_floors (w h : Int) (rng : Nat → Nat)
    (hw : 5 ≤ w) (hh : 5 ≤ h) (fuel : Nat) (g : Grid) (k : Nat) :
    ∃ a b : V2, a ≠ b ∧ a ≠ start11 ∧ b ≠ start11 ∧
      isValidPosition w h a ∧ isValidPosition w h b ∧
      (carveLoop w h rng (fuel + 1) g [start11] [start11] k).1 a = CellType.floor ∧
      (carveLoop w h rng (fuel + 1) g [start11] [start11] k).1 b = CellType.floor := by
  have hne := getUnvisitedNeighbors_start_ne_nil hw hh
  simp only [carveLoop]
  rw [dif_neg hne]
  set ns := getUnvisitedNeighbors w h [start11] start11 with hns
  set next := ns.get ⟨rng k % ns.length, Nat.mod_lt _ (List.length_pos.mpr hne)⟩
    with hnextdef
  have hnextmem : next ∈ ns := List.get_mem _ _ _
  have hmemfacts := mem_getUnvisitedNeighbors.mp hnextmem
  have hnval : isValidPosition w h next := hmemfacts.2.1
  have hnnotstart : next ≠ start11 := by
    have := hmemfacts.2.2.2.2.2.2
    simp only [List.mem_singleton] at this
    exact this
  obtain ⟨hmadj, hnadj, hnm⟩ := carve_geometry (start11_valid hw hh) hnextmem
  have hmval : isValidPosition w h (wallBetween start11 next) :=
    (mem_getAdjacentPositions.mp hmadj).2
  have hmnotstart : wallBetween start11 next ≠ start11 := adjacent_ne hmadj
  refine ⟨next, wallBetween start11 next, hnm, hnnotstart, hmnotstart, hnval, hmval,
    ?_, ?_⟩
  · apply carveLoop_floorPres
    rw [setCellType_ne hnm, setCellType_self hnval]
  · apply carveLoop_floorPres
    rw [setCellType_self hmval]

/-- The generator always leaves two distinct non-start floor cells. -/
theorem generateSimpleMaze_two_floors (w h : Int) (rng : Nat → Nat)
    (hw : 5 ≤ w) (hh : 5 ≤ h) (g0 : Grid) (k0 : Nat) :
    ∃ a b : V2, a ≠ b ∧ a ≠ start11 ∧ b ≠ start11 ∧
      isValidPosition w h a ∧ isValidPosition w h b ∧
      (generateSimpleMaze w h rng g0 k0).1 a = CellType.floor ∧
      (generateSimpleMaze w h rng g0 k0).1 b = CellType.floor := by
  have hfuel : 4 * w.toNat * h.toNat + 4 = (4 * w.toNat * h.toNat + 3) + 1 := by omega
  obtain ⟨a, b, hab, has, hbs, hav, hbv, hfa, hfb⟩ :=
    carveLoop_start_two_floors w h rng hw hh (4 * w.toNat * h.toNat + 3)
      (setCellType w h g0 start11 CellType.floor) k0
  refine ⟨a, b, hab, has, hbs, hav, hbv, ?_, ?_⟩ <;>
    unfold generateSimpleMaze <;> rw [hfuel] <;>
    apply addStrategicConnectionsLoop_floorPres <;>
    apply addRandomConnectionsLoop_floorPres
  · exact hfa
  · exact hfb

/-- The generator re-floors the start cell. -/
theorem generateSimpleMaze_start_floor (w h : Int) (rng : Nat → Nat)
    (hw : 5 ≤ w) (hh : 5 ≤ h) (g0 : Grid) (k0 : Nat) :
    (generateSimpleMaze w h rng g0 k0).1 start11 = CellType.floor := by
  apply generateSimpleMaze_floorPres
  rw [setCellType_self (start11_valid hw hh)]

theorem mem_allPositions {w h : Int} {p : V2} :
    p ∈ allPositions w h ↔ isValidPosition w h p := by
  unfold allPositions
  constructor
  · intro hp
    obtain ⟨y, hy, hp2⟩ := List.mem_flatMap.mp hp
    obtain ⟨x, hx, hp3⟩ := List.mem_map.mp hp2
    rw [List.mem_range] at hy hx
    rw [← hp3]
    unfold isValidPosition
    simp only [V2.mk_x, V2.mk_y]
    omega
  · intro hval
    obtain ⟨hx0, hxw, hy0, hyh⟩ := hval
    apply List.mem_flatMap.mpr
    refine ⟨p.y.toNat, List.mem_range.mpr (by omega), ?_⟩
    apply List.mem_map.mpr
    refine ⟨p.x.toNat, List.mem_range.mpr (by omega), ?_⟩
    rw [V2.eq_iff]
    simp only [V2.mk_x, V2.mk_y]
    omega

/-- A fold that always chooses between the accumulator and the current
element stays inside the initial-accumulator-plus-list set. -/
theorem foldl_choice_mem {α : Type} (f : α → α → α)
    (hf : ∀ a b, f a b = a ∨ f a b = b) :
    ∀ (l : List α) (c : α), l.foldl f c ∈ c :: l := by
  intro l
  induction l with
  | nil => intro c; simp
  | cons x xs ih =>
    intro c
    simp only [List.foldl_cons]
    have hmem := ih (f c x)
    rcases List.mem_cons.mp hmem with h1 | h1
    · rcases hf c x with he | he
      · rw [h1, he]; exact List.mem_cons_self _ _
      · rw [h1, he]; exact List.mem_cons_of_mem _ (List.mem_cons_self _ _)
    · exact List.mem_cons_of_mem _ (List.mem_cons_of_mem _ h1)

/-- When a candidate floor cell exists, the selected prize position is
itself a valid floor cell distinct from the start. -/
theorem findGoodPrizePosition_spec {w h : Int} {g : Grid}
    (hex : ∃ p, p ∈ allPositions w h ∧ g p = CellType.floor ∧ p ≠ start11) :
    isValidPosition w h (findGoodPrizePosition w h g) ∧
      g (findGoodPrizePosition w h g) = CellType.floor ∧
      findGoodPrizePosition w h g ≠ start11 := by
  obtain ⟨p, hp1, hp2, hp3⟩ := hex
  have hpmem : p ∈ (allPositions w h).filter fun q =>
      decide (g q = CellType.floor ∧ q ≠ start11) := by
    rw [List.mem_filter]
    exact ⟨hp1, decide_eq_true_eq.mpr ⟨hp2, hp3⟩⟩
  obtain ⟨c, cs, hcc⟩ : ∃ c cs, ((allPositions w h).filter fun q =>
      decide (g q = CellType.floor ∧ q ≠ start11)) = c :: cs := by
    cases hfc : (allPositions w h).filter fun q =>
        decide (g q = CellType.floor ∧ q ≠ start11) with
    | nil => rw [hfc] at hpmem; exact absurd hpmem (List.not_mem_nil p)
    | cons c cs => exact ⟨c, cs, rfl⟩
  have hresult : findGoodPrizePosition w h g ∈ c :: c :: cs := by
    unfold findGoodPrizePosition
    rw [hcc]
    exact foldl_choice_mem _ (fun a b => by
      by_cases hd : distSq start11 a < distSq start11 b
      · right; simp [hd]
      · left; simp [hd]) (c :: cs) c
  have hresmem : findGoodPrizePosition w h g ∈ (allPositions w h).filter fun q =>
      decide (g q = CellType.floor ∧ q ≠ start11) := by
    rw [hcc]
    rcases List.mem_cons.mp hresult with h1 | h1
    · rw [h1]; exact List.mem_cons_self _ _
    · exact h1
  rw [List.mem_filter] at hresmem
  have hprops := decide_eq_true_eq.mp hresmem.2
  exact ⟨mem_allPositions.mp hresmem.1, hprops.1, hprops.2⟩

/-- The constructed maze has a walkable start, a walkable prize, and a
walkable path between them — in both branches of the connectivity
check (the invariant makes the check's outcome irrelevant). -/
theorem mkMaze_reach (w h : Int) (rng : Nat → Nat) (hw : 5 ≤ w) (hh : 5 ≤ h) :
    isWalkable w h (mkMaze w h rng).1.grid (mkMaze w h rng).1.startPosition ∧
      isWalkable w h (mkMaze w h rng).1.grid (mkMaze w h rng).1.prizePosition ∧
      Reach w h (mkMaze w h rng).1.grid (mkMaze w h rng).1.startPosition
        (mkMaze w h rng).1.prizePosition := by
  have hInv0 : Inv w h (fun _ => CellType.wall) := by
    intro p hp
    exact absurd rfl hp.2
  set r1 := generateSimpleMaze w h rng (fun _ => CellType.wall) 0 with hr1
  have hInv1 : Inv w h r1.1 := generateSimpleMaze_inv w h rng hw hh _ 0 hInv0
  obtain ⟨a, b, hab, has, hbs, hav, hbv, hfa, hfb⟩ :=
    generateSimpleMaze_two_floors w h rng hw hh (fun _ => CellType.wall) 0
  have hex1 : ∃ p, p ∈ allPositions w h ∧ r1.1 p = CellType.floor ∧ p ≠ start11 :=
    ⟨a, mem_allPositions.mpr hav, hfa, has⟩
  set prize1 := findGoodPrizePosition w h r1.1 with hprize1
  obtain ⟨hp1val, hp1floor, hp1ne⟩ := findGoodPrizePosition_spec hex1
  set gA := setCellType w h r1.1 start11 CellType.start with hgA
  set g2 := setCellType w h gA prize1 CellType.prize with hg2def
  have hstartfloor : r1.1 start11 = CellType.floor :=
    generateSimpleMaze_start_floor w h rng hw hh _ 0
  have hInvA : Inv w h gA :=
    inv_retype hInv1 (by simp) (by rw [hstartfloor]; simp)
  have hgAp : gA prize1 = CellType.floor := by
    rw [hgA, setCellType_ne hp1ne]
    exact hp1floor
  have hInv2 : Inv w h g2 := inv_retype hInvA (by simp) (by rw [hgAp]; simp)
  have hg2start : g2 start11 = CellType.start := by
    rw [hg2def, setCellType_ne (Ne.symm hp1ne), hgA,
      setCellType_self (start11_valid hw hh)]
  have hg2prize : g2 prize1 = CellType.prize := by
    rw [hg2def, setCellType_self hp1val]
  have hwalkstart : isWalkable w h g2 start11 :=
    ⟨start11_valid hw hh, by rw [hg2start]; simp⟩
  have hwalkprize : isWalkable w h g2 prize1 := ⟨hp1val, by rw [hg2prize]; simp⟩
  have hreach2 : Reach w h g2 start11 prize1 := hInv2 prize1 hwalkprize
  set r3 := generateSimpleMaze w h rng g2 r1.2 with hr3
  have hInv3 : Inv w h r3.1 := generateSimpleMaze_inv w h rng hw hh g2 r1.2 hInv2
  obtain ⟨a2, b2, hab2, has2, hbs2, hav2, hbv2, hfa2, hfb2⟩ :=
    generateSimpleMaze_two_floors w h rng hw hh g2 r1.2
  have hex2 : ∃ p, p ∈ allPositions w h ∧ r3.1 p = CellType.floor ∧ p ≠ start11 :=
    ⟨a2, mem_allPositions.mpr hav2, hfa2, has2⟩
  set prize2 := findGoodPrizePosition w h r3.1 with hprize2
  obtain ⟨hp2val, hp2floor, hp2ne⟩ := findGoodPrizePosition_spec hex2
  set g4 := setCellType w h r3.1 prize2 CellType.prize with hg4
  have hInv4 : Inv w h g4 := inv_retype hInv3 (by simp) (by rw [hp2floor]; simp)
  have hstart3 : r3.1 start11 = CellType.floor :=
    generateSimpleMaze_start_floor w h rng hw hh g2 r1.2
  have hg4start : g4 start11 = CellType.floor := by
    rw [hg4, setCellType_ne (Ne.symm hp2ne), hstart3]
  have hg4prize : g4 prize2 = CellType.prize := by
    rw [hg4, setCellType_self hp2val]
  have hwalkstart4 : isWalkable w h g4 start11 :=
    ⟨start11_valid hw hh, by rw [hg4start]; simp⟩
  have hwalkprize4 : isWalkable w h g4 prize2 := ⟨hp2val, by rw [hg4prize]; simp⟩
  have hreach4 : Reach w h g4 start11 prize2 := hInv4 prize2 hwalkprize4
  simp only [mkMaze]
  split
  · exact ⟨hwalkstart, hwalkprize, hreach2⟩
  · exact ⟨hwalkstart4, hwalkprize4, hreach4⟩

theorem distSq_nonneg (a b : V2) : 0 ≤ distSq a b :=
  add_nonneg (sq_nonneg _) (sq_nonneg _)

/-- The proxy intensity exceeds `0.5` exactly when the squared distance
is below 4 (i.e. the pursuer is within distance 2 of the player). -/
theorem getLightIntensityAtPosition_gt_half_iff (mp pp : V2) :
    1 / 2 < getLightIntensityAtPosition mp pp ↔ distSq mp pp < 4 := by
  unfold getLightIntensityAtPosition
  have hs0 : (0 : ℝ) ≤ ((distSq mp pp : ℤ) : ℝ) := by
    exact_mod_cast distSq_nonneg mp pp
  split
  · rename_i hfar
    constructor
    · intro habs; norm_num at habs
    · intro hlt
      exfalso
      have h4 : Real.sqrt ((distSq mp pp : ℤ) : ℝ) < 2 := by
        rw [show (2 : ℝ) = Real.sqrt 4 by
              rw [show (4 : ℝ) = 2 ^ 2 by norm_num, Real.sqrt_sq (by norm_num)]]
        apply Real.sqrt_lt_sqrt hs0
        exact_mod_cast hlt
      linarith
  · rename_i hnear
    push_neg at hnear
    constructor
    · intro hgt
      rw [lt_max_iff] at hgt
      rcases hgt with h1 | h1
      · norm_num at h1
      · have hsq : Real.sqrt ((distSq mp pp : ℤ) : ℝ) < 2 := by linarith
        have := (Real.sqrt_lt' (by norm_num : (0 : ℝ) < 2)).mp hsq
        have h4 : ((distSq mp pp : ℤ) : ℝ) < 4 := by
          calc ((distSq mp pp : ℤ) : ℝ) < 2 ^ 2 := this
          _ = 4 := by norm_num
        exact_mod_cast h4
    · intro hlt
      have hsq : Real.sqrt ((distSq mp pp : ℤ) : ℝ) < 2 := by
        rw [Real.sqrt_lt' (by norm_num : (0 : ℝ) < 2)]
        calc ((distSq mp pp : ℤ) : ℝ) < 4 := by exact_mod_cast hlt
        _ = 2 ^ 2 := by norm_num
      apply lt_max_of_lt_right
      linarith

theorem pathLast_nil (p : V2) : pathLast p [] = p := rfl

theorem pathLast_cons (p q : V2) (qs : List V2) :
    pathLast p (q :: qs) = pathLast q qs := by
  cases qs with
  | nil => rfl
  | cons r rs => rfl

theorem pathLast_concat (p n : V2) (l : List V2) :
    pathLast p (l ++ [n]) = n := by
  induction l generalizing p with
  | nil => rfl
  | cons q qs ih => rw [List.cons_append, pathLast_cons, ih]

theorem validPath_concat {mz : Maze} {n : V2} :
    ∀ (l : List V2) (p : V2), ValidPath mz p l →
      n ∈ getAdjacentPositions mz.width mz.height (pathLast p l) →
      isWalkable mz.width mz.height mz.grid n →
      ValidPath mz p (l ++ [n]) := by
  intro l
  induction l with
  | nil =>
    intro p _ hadj hw
    exact ⟨hadj, hw, trivial⟩
  | cons q qs ih =>
    intro p hv hadj hw
    obtain ⟨h1, h2, h3⟩ := hv
    rw [pathLast_cons] at hadj
    exact ⟨h1, h2, ih q h3 hadj hw⟩

/-- BFS soundness: a nonempty result of the capped queue loop is a
walkable path of length at most 16 from the source to the player. -/
theorem monsterBfsLoop_sound (mz : Maze) (pp src : V2) :
    ∀ (fuel : Nat) (queue : List (V2 × List V2)) (visited : List V2),
      (∀ e ∈ queue, ValidPath mz src e.2 ∧ pathLast src e.2 = e.1 ∧
        e.2.length ≤ 16) →
      monsterBfsLoop mz pp fuel queue visited ≠ [] →
      ValidPath mz src (monsterBfsLoop mz pp fuel queue visited) ∧
        pathLast src (monsterBfsLoop mz pp fuel queue visited) = pp ∧
        (monsterBfsLoop mz pp fuel queue visited).length ≤ 16 := by
  intro fuel
  induction fuel with
  | zero => intro queue visited _ hne; exact absurd rfl hne
  | succ n ih =>
    intro queue visited hq hne
    cases queue with
    | nil => exact absurd rfl hne
    | cons e rest =>
      obtain ⟨pos, path⟩ := e
      have he := hq (pos, path) (List.mem_cons_self _ _)
      simp only [monsterBfsLoop] at hne ⊢
      by_cases hfound : pos = pp
      · rw [if_pos hfound] at hne ⊢
        exact ⟨he.1, hfound ▸ he.2.1, he.2.2⟩
      · rw [if_neg hfound] at hne ⊢
        by_cases hdeep : 15 < path.length
        · rw [if_pos hdeep] at hne ⊢
          exact ih rest visited
            (fun e he2 => hq e (List.mem_cons_of_mem _ he2)) hne
        · rw [if_neg hdeep] at hne ⊢
          apply ih _ _ _ hne
          intro e2 he2
          rcases List.mem_append.mp he2 with hl | hr
          · exact hq e2 (List.mem_cons_of_mem _ hl)
          · obtain ⟨q, hqmem, rfl⟩ := List.mem_map.mp hr
            rw [List.mem_filter] at hqmem
            have hqprops := decide_eq_true_eq.mp hqmem.2
            refine ⟨?_, ?_, ?_⟩
            · exact validPath_concat path src he.1
                (by rw [he.2.1]; exact hqmem.1) hqprops.2
            · exact pathLast_concat src q path
            · simp only [List.length_append, List.length_singleton]
              omega

/-- Soundness at the `calculatePathToPlayer` wrapper. -/
theorem calculatePathToPlayer_sound (mz : Maze) (src pp : V2)
    (hne : calculatePathToPlayer mz src pp ≠ []) :
    ValidPath mz src (calculatePathToPlayer mz src pp) ∧
      pathLast src (calculatePathToPlayer mz src pp) = pp ∧
      (calculatePathToPlayer mz src pp).length ≤ 16 := by
  apply monsterBfsLoop_sound mz pp src _ _ _ _ hne
  intro e he
  rw [List.mem_singleton] at he
  subst he
  exact ⟨trivial, rfl, by simp⟩

/-- Each 4-directional step changes the x-coordinate by at most one, so
a stored path must be at least as long as the x-displacement it
achieves. -/
theorem validPath_length_ge_dx {mz : Maze} :
    ∀ (l : List V2) (p : V2), ValidPath mz p l →
      ((pathLast p l).x - p.x).natAbs ≤ l.length := by
  intro l
  induction l with
  | nil => intro p _; simp [pathLast_nil]
  | cons q qs ih =>
    intro p hv
    obtain ⟨h1, h2, h3⟩ := hv
    rw [pathLast_cons]
    have hstep : (q.x - p.x).natAbs ≤ 1 := by
      rw [mem_getAdjacentPositions] at h1
      obtain ⟨⟨d, hd, rfl⟩, _⟩ := h1
      simp only [directions4, List.mem_cons, List.not_mem_nil, or_false] at hd
      rcases hd with rfl | rfl | rfl | rfl <;>
        simp only [V2.add_x, V2.mk_x] <;> omega
    have hrest := ih q h3
    simp only [List.length_cons]
    omega

/-! ## Spawn placement and pursuer-position invariants -/

theorem getD_head_mem {α : Type} (c : α) (cs : List α) (n : Nat) :
    (c :: cs).getD n c ∈ c :: cs := by
  unfold List.getD
  cases hg : (c :: cs).get? n with
  | none => simp
  | some a =>
    simp only [Option.getD_some]
    exact List.get?_mem hg

/-- The spawn choice always lands on a floor cell distinct from start
and prize, provided such a cell exists (the fallback branch for an
empty candidate list is then unreachable). -/
theorem findMonsterStartPosition_walkable (mz : Maze) (rng : Nat → Nat) (k : Nat)
    (hex : ∃ p, p ∈ allPositions mz.width mz.height ∧ mz.grid p = CellType.floor ∧
      p ≠ mz.startPosition ∧ p ≠ mz.prizePosition) :
    isWalkable mz.width mz.height mz.grid
      (findMonsterStartPosition mz rng k).1 := by
  obtain ⟨p, hp1, hp2, hp3, hp4⟩ := hex
  have hpmem : p ∈ (allPositions mz.width mz.height).filter fun q =>
      decide (mz.grid q = CellType.floor ∧ q ≠ mz.startPosition ∧
        q ≠ mz.prizePosition) := by
    rw [List.mem_filter]
    exact ⟨hp1, decide_eq_true_eq.mpr ⟨hp2, hp3, hp4⟩⟩
  have hfloor_of_mem : ∀ q ∈ (allPositions mz.width mz.height).filter fun r =>
      decide (mz.grid r = CellType.floor ∧ r ≠ mz.startPosition ∧
        r ≠ mz.prizePosition), isWalkable mz.width mz.height mz.grid q := by
    intro q hq
    rw [List.mem_filter] at hq
    have hqprops := decide_eq_true_eq.mp hq.2
    exact ⟨mem_allPositions.mp hq.1, by rw [hqprops.1]; simp⟩
  unfold findMonsterStartPosition
  split
  · rename_i hfc
    rw [hfc] at hpmem
    exact absurd hpmem (List.not_mem_nil p)
  · rename_i c cs hfc
    have hsub : ∀ q, q ∈ ((c :: cs).filter fun r =>
        decide (25 ≤ distSq mz.startPosition r ∧ 9 ≤ distSq mz.prizePosition r)) →
        q ∈ c :: cs := fun q hq => (List.mem_filter.mp hq).1
    dsimp only
    split
    · rename_i hcand
      apply hfloor_of_mem
      rw [hfc]
      exact getD_head_mem c cs _
    · rename_i d ds hcand
      apply hfloor_of_mem
      rw [hfc]
      have hsub2 : ∀ q, q ∈ d :: ds → q ∈ c :: cs := by
        intro q hq
        rw [← hcand] at hq
        split at hq
        · exact hsub _ ((List.mem_filter.mp hq).1)
        · exact hsub _ hq
      exact hsub2 _ (getD_head_mem d ds _)

theorem moveTowardsPlayer_walkable {mz : Maze} {m : Monster}
    (hm : isWalkable mz.width mz.height mz.grid m.position) :
    isWalkable mz.width mz.height mz.grid (moveTowardsPlayer mz m).position := by
  unfold moveTowardsPlayer
  split
  · exact hm
  · split
    · rename_i hwalk
      exact hwalk
    · exact hm

theorem monsterUpdate_walkable {mz : Maze} {dt : ℚ} {pp : V2} {i : ℝ}
    {m : Monster} (hm : isWalkable mz.width mz.height mz.grid m.position) :
    isWalkable mz.width mz.height mz.grid
      (monsterUpdate mz dt pp i m).position := by
  unfold monsterUpdate
  dsimp only
  split
  · exact hm
  · split <;> split <;>
      first
        | exact hm
        | (apply moveTowardsPlayer_walkable; exact hm)

theorem resetPosition_position (p : V2) (m : Monster) :
    (resetPosition p m).position = p := rfl

theorem mkMaze_dims (w h : Int) (rng : Nat → Nat) :
    (mkMaze w h rng).1.width = w ∧ (mkMaze w h rng).1.height = h ∧
      (mkMaze w h rng).1.startPosition = start11 := by
  simp only [mkMaze]
  split
  · exact ⟨rfl, rfl, rfl⟩
  · exact ⟨rfl, rfl, rfl⟩

/-- The constructed maze always contains a floor cell distinct from
both the start and the prize (the spawn placement's candidate set is
nonempty). -/
theorem mkMaze_floor_cell (w h : Int) (rng : Nat → Nat)
    (hw : 5 ≤ w) (hh : 5 ≤ h) :
    ∃ p : V2, p ∈ allPositions w h ∧
      (mkMaze w h rng).1.grid p = CellType.floor ∧
      p ≠ (mkMaze w h rng).1.startPosition ∧
      p ≠ (mkMaze w h rng).1.prizePosition := by
  obtain ⟨a, b, hab, has, hbs, hav, hbv, hfa, hfb⟩ :=
    generateSimpleMaze_two_floors w h rng hw hh (fun _ => CellType.wall) 0
  set r1 := generateSimpleMaze w h rng (fun _ => CellType.wall) 0 with hr1
  set prize1 := findGoodPrizePosition w h r1.1 with hprize1
  set gA := setCellType w h r1.1 start11 CellType.start with hgA
  set g2 := setCellType w h gA prize1 CellType.prize with hg2
  obtain ⟨a2, b2, hab2, has2, hbs2, hav2, hbv2, hfa2, hfb2⟩ :=
    generateSimpleMaze_two_floors w h rng hw hh g2 r1.2
  set r3 := generateSimpleMaze w h rng g2 r1.2 with hr3
  set prize2 := findGoodPrizePosition w h r3.1 with hprize2
  set g4 := setCellType w h r3.1 prize2 CellType.prize with hg4
  simp only [mkMaze]
  split
  · by_cases hcase : a = prize1
    · have hbp : b ≠ prize1 := fun hbpr => hab (hcase.trans hbpr.symm)
      have hgoal : g2 b = CellType.floor := by
        rw [hg2, setCellType_ne hbp, hgA, setCellType_ne hbs]
        exact hfb
      exact ⟨b, mem_allPositions.mpr hbv, hgoal, hbs, hbp⟩
    · have hgoal : g2 a = CellType.floor := by
        rw [hg2, setCellType_ne hcase, hgA, setCellType_ne has]
        exact hfa
      exact ⟨a, mem_allPositions.mpr hav, hgoal, has, hcase⟩
  · by_cases hcase : a2 = prize2
    · have hbp : b2 ≠ prize2 := fun hbpr => hab2 (hcase.trans hbpr.symm)
      have hgoal : g4 b2 = CellType.floor := by
        rw [hg4, setCellType_ne hbp]
        exact hfb2
      exact ⟨b2, mem_allPositions.mpr hbv2, hgoal, hbs2, hbp⟩
    · have hgoal : g4 a2 = CellType.floor := by
        rw [hg4, setCellType_ne hcase]
        exact hfa2
      exact ⟨a2, mem_allPositions.mpr hav2, hgoal, has2, hcase⟩

theorem simUpdate_maze (dt : ℚ) (s : GameSimulation) :
    (simUpdate dt s).maze = s.maze := by
  unfold simUpdate
  dsimp only
  split_ifs <;> rfl

theorem simUpdate_monster (dt : ℚ) (s : GameSimulation) :
    (simUpdate dt s).monster = s.monster ∨
      (simUpdate dt s).monster = monsterUpdate s.maze dt s.player.position
        (getLightIntensity s.maze s.player s.player.position) s.monster := by
  unfold simUpdate
  dsimp only
  split_ifs
  · exact Or.inl rfl
  · exact Or.inr rfl
  · exact Or.inr rfl
  · exact Or.inr rfl

theorem simMovePlayer_monster (d : V2) (s : GameSimulation) :
    (simMovePlayer d s).1.monster = s.monster := by
  unfold simMovePlayer
  split <;> rfl

theorem simMovePlayer_maze (d : V2) (s : GameSimulation) :
    (simMovePlayer d s).1.maze = s.maze := by
  unfold simMovePlayer
  split <;> rfl

theorem simTogglePause_skeleton (s : GameSimulation) :
    (simTogglePause s).monster = s.monster ∧ (simTogglePause s).maze = s.maze := by
  unfold simTogglePause
  split_ifs <;> exact ⟨rfl, rfl⟩

theorem runCmd_monsterInv (mz0 : Maze)
    (hex : ∃ p, p ∈ allPositions mz0.width mz0.height ∧
      mz0.grid p = CellType.floor ∧ p ≠ mz0.startPosition ∧
      p ≠ mz0.prizePosition)
    (c : Cmd) (s : GameSimulation) (hs : MonsterInv mz0 s) :
    MonsterInv mz0 (runCmd c s) := by
  obtain ⟨hmz, hwalk⟩ := hs
  cases c with
  | update dt =>
    refine ⟨by rw [runCmd, simUpdate_maze, hmz], ?_⟩
    rcases simUpdate_monster dt s with hsame | hupd
    · rw [runCmd, hsame]; exact hwalk
    · rw [runCmd, hupd, hmz]
      exact monsterUpdate_walkable (by rw [← hmz]; rw [hmz]; exact hwalk)
  | move d =>
    exact ⟨by rw [runCmd, simMovePlayer_maze, hmz], by rw [runCmd, simMovePlayer_monster]; exact hwalk⟩
  | reset =>
    refine ⟨hmz, ?_⟩
    have : (simReset s).monster.position =
        (findMonsterStartPosition s.maze s.rng s.rngIx).1 := rfl
    rw [runCmd, this, hmz]
    exact findMonsterStartPosition_walkable mz0 s.rng s.rngIx hex
  | togglePause =>
    exact ⟨by rw [runCmd, (simTogglePause_skeleton s).2, hmz],
      by rw [runCmd, (simTogglePause_skeleton s).1]; exact hwalk⟩
  | toggleGodMode => exact ⟨hmz, hwalk⟩
  | setFlashlight d => exact ⟨hmz, hwalk⟩
  | rotate c sn => exact ⟨hmz, hwalk⟩

theorem runCmds_monsterInv (mz0 : Maze)
    (hex : ∃ p, p ∈ allPositions mz0.width mz0.height ∧
      mz0.grid p = CellType.floor ∧ p ≠ mz0.startPosition ∧
      p ≠ mz0.prizePosition) :
    ∀ (cmds : List Cmd) (s : GameSimulation), MonsterInv mz0 s →
      MonsterInv mz0 (runCmds cmds s) := by
  intro cmds
  induction cmds with
  | nil => intro s hs; exact hs
  | cons c cs ih =>
    intro s hs
    exact ih _ (runCmd_monsterInv mz0 hex c s hs)

/-! ## Claim theorems -/

/-- C1: for every maze constructed with width and height at least 5
(odd dimensions) and every sequence of random choices made during
generation, after the constructor returns both the start and the prize
cells are walkable and a walkable path (breadth-first reachability over
non-wall cells with 4-directional adjacency) leads from `startPosition`
to `prizePosition`. -/
theorem maze_start_to_prize_reachable (w h : Int) (rng : Nat → Nat)
    (hw : 5 ≤ w) (hh : 5 ≤ h) (hwodd : Odd w) (hhodd : Odd h) :
    isWalkable w h (mkMaze w h rng).1.grid (mkMaze w h rng).1.startPosition ∧
      isWalkable w h (mkMaze w h rng).1.grid (mkMaze w h rng).1.prizePosition ∧
      Reach w h (mkMaze w h rng).1.grid (mkMaze w h rng).1.startPosition
        (mkMaze w h rng).1.prizePosition :=
  mkMaze_reach w h rng hw hh

theorem maze_start_to_prize_reachable_witness :
    isWalkable 5 5 (mkMaze 5 5 (fun _ => 0)).1.grid
        (mkMaze 5 5 (fun _ => 0)).1.startPosition ∧
      isWalkable 5 5 (mkMaze 5 5 (fun _ => 0)).1.grid
        (mkMaze 5 5 (fun _ => 0)).1.prizePosition ∧
      Reach 5 5 (mkMaze 5 5 (fun _ => 0)).1.grid
        (mkMaze 5 5 (fun _ => 0)).1.startPosition
        (mkMaze 5 5 (fun _ => 0)).1.prizePosition :=
  maze_start_to_prize_reachable 5 5 (fun _ => 0) (by norm_num) (by norm_num)
    (by decide) (by decide)

/-- C2 (code bug): calling `reset()` from a game-over state does put
the game back in `exploring` with the player at the start, but the
footprint trail is untouched: all three pre-reset entries survive and
no fresh entry is seeded at the start (the `Player.clearFootprints`
method, whose own comment says it is "for game reset", is never
called). -/
theorem reset_does_not_clear_footprints :
    (simReset resetFixture).gameState = GameState.exploring ∧
    (simReset resetFixture).player.position = corridorMaze.startPosition ∧
    (simReset resetFixture).player.footprints = resetFixture.player.footprints ∧
    (simReset resetFixture).player.footprints.length = 3 :=
  ⟨rfl, rfl, rfl, rfl⟩

/-- C3 (counterexample): with fear-of-light enabled and a supplied
intensity sample of `1 > 0.5`, the claim prescribes multiplier 2
(move interval 1600 ms at speed 800, so no move after 800 ms); the
code ignores the supplied sample, computes its own distance proxy
(zero at distance 9 > 4), keeps the multiplier at 1, and the pursuer
moves after 800 ms. -/
theorem monster_slowdown_counterexample :
    speedModifierClaimed fearMonster.fearOfLight (1 : ℝ) = 2 ∧
    monsterSpeedModifier fearMonster ⟨10, 1⟩ = 1 ∧
    monsterSpeedModifier fearMonster ⟨10, 1⟩ ≠
      speedModifierClaimed fearMonster.fearOfLight (1 : ℝ) ∧
    (monsterUpdate corridorMaze 800 ⟨10, 1⟩ (1 : ℝ) fearMonster).position =
      ⟨2, 1⟩ ∧
    fearMonster.position = ⟨1, 1⟩ := by
  have hclaimed : speedModifierClaimed fearMonster.fearOfLight (1 : ℝ) = 2 := by
    rw [speedModifierClaimed, if_pos ⟨rfl, by norm_num⟩]
  have hcode : monsterSpeedModifier fearMonster ⟨10, 1⟩ = 1 := by
    norm_num [monsterSpeedModifier, fearMonster, distSq]
  refine ⟨hclaimed, hcode, ?_, ?_, rfl⟩
  · rw [hclaimed, hcode]
    norm_num
  · norm_num [monsterUpdate, fearMonster, monsterSpeedModifier, distSq,
      moveTowardsPlayer, isWalkable, isValidPosition, corridorMaze]
    simp

/-- C3 (amended): the light-intensity sample supplied to
`Monster.update` has no effect on the result; instead, the movement
interval multiplier is 2 exactly when fear-of-light is enabled and the
internally computed distance-based intensity at the pursuer's own
position exceeds 0.5 (equivalently, the pursuer stands within distance
2 of the player), and 1 otherwise. -/
theorem monster_slowdown_internal_proxy (mz : Maze) (dt : ℚ) (pp : V2)
    (i₁ i₂ : ℝ) (m : Monster) :
    monsterUpdate mz dt pp i₁ m = monsterUpdate mz dt pp i₂ m ∧
    (monsterSpeedModifier m pp = 2 ↔
      m.fearOfLight = true ∧ 1 / 2 < getLightIntensityAtPosition m.position pp) ∧
    (monsterSpeedModifier m pp = 1 ↔
      ¬(m.fearOfLight = true ∧
        1 / 2 < getLightIntensityAtPosition m.position pp)) := by
  refine ⟨rfl, ?_, ?_⟩
  · unfold monsterSpeedModifier
    rw [getLightIntensityAtPosition_gt_half_iff]
    split_ifs with hc
    · simp [hc]
    · norm_num [hc]
  · unfold monsterSpeedModifier
    rw [getLightIntensityAtPosition_gt_half_iff]
    split_ifs with hc
    · norm_num [hc]
    · simp [hc]

/-- C6: a move into a wall cell or out of the grid returns `false`
with the state unchanged (never an exception — the embedding is a
total function); a move onto a walkable cell returns `true` and puts
the player exactly on the destination cell. -/
theorem movePlayer_reject_or_move (s : GameSimulation) (direction : V2) :
    (s.maze.grid (s.player.position.add direction) = CellType.wall ∨
        ¬ isValidPosition s.maze.width s.maze.height
          (s.player.position.add direction) →
      simMovePlayer direction s = (s, false)) ∧
    (isWalkable s.maze.width s.maze.height s.maze.grid
        (s.player.position.add direction) →
      (simMovePlayer direction s).2 = true ∧
        (simMovePlayer direction s).1.player.position =
          s.player.position.add direction) := by
  constructor
  · intro hbad
    unfold simMovePlayer
    rw [if_neg]
    rintro ⟨hval, hnw⟩
    rcases hbad with hwall | hinval
    · exact hnw hwall
    · exact hinval hval
  · intro hgood
    unfold simMovePlayer
    rw [if_pos hgood]
    exact ⟨rfl, rfl⟩

theorem movePlayer_reject_or_move_witness :
    simMovePlayer ⟨0, -1⟩ corridorSim = (corridorSim, false) ∧
      (simMovePlayer ⟨1, 0⟩ corridorSim).2 = true ∧
      (simMovePlayer ⟨1, 0⟩ corridorSim).1.player.position =
        corridorSim.player.position.add ⟨1, 0⟩ :=
  ⟨(movePlayer_reject_or_move corridorSim ⟨0, -1⟩).1 (Or.inl (by decide)),
   (movePlayer_reject_or_move corridorSim ⟨1, 0⟩).2 (by decide)⟩

/-- C10: in the exploring state, when the pursuer's tick ends on the
player's cell, `update` transitions to game-over and never evaluates
the win condition on that call — even if the player simultaneously
stands on the prize, the outcome is game-over, not victory. -/
theorem capture_over_victory (s : GameSimulation) (dt : ℚ)
    (hexp : s.gameState = GameState.exploring)
    (hcaught : (monsterUpdate s.maze dt s.player.position
        (getLightIntensity s.maze s.player s.player.position)
        s.monster).position = s.player.position) :
    (simUpdate dt s).gameState = GameState.gameOver ∧
      (simUpdate dt s).gameState ≠ GameState.victory := by
  have hmain : (simUpdate dt s).gameState = GameState.gameOver := by
    unfold simUpdate
    dsimp only
    split_ifs with h1 h2 h3
    · exact absurd hexp h1
    · rfl
    · exact absurd hcaught h2
    · exact absurd hcaught h2
  exact ⟨hmain, by rw [hmain]; decide⟩

theorem capture_over_victory_witness :
    capturePrizeSim.player.position = capturePrizeSim.maze.prizePosition ∧
    (simUpdate 900 capturePrizeSim).gameState = GameState.gameOver ∧
      (simUpdate 900 capturePrizeSim).gameState ≠ GameState.victory :=
  ⟨rfl,
    (capture_over_victory capturePrizeSim 900 rfl (by
      norm_num [monsterUpdate, capturePrizeSim, monsterSpeedModifier, distSq,
        moveTowardsPlayer, mkPlayer])).1,
    (capture_over_victory capturePrizeSim 900 rfl (by
      norm_num [monsterUpdate, capturePrizeSim, monsterSpeedModifier, distSq,
        moveTowardsPlayer, mkPlayer])).2⟩

/-- C4 (counterexample): a target at distance 9 — beyond the
flashlight range of 4 and outside the cone half-angle (it lies behind
the aim direction) — still has positive illumination, because the
footprint-trail entry at that cell contributes its stored intensity;
the claim that the intensity is 0 regardless of light source fails. -/
theorem light_beyond_range_counterexample :
    16 < ((V2.mk 10 1).sub farFootprintPlayer.position).normSq ∧
    ¬ inConeAngle farFootprintPlayer.flashlightDirection
      ((V2.mk 10 1).sub farFootprintPlayer.position) ∧
    0 < getLightIntensity corridorMaze farFootprintPlayer ⟨10, 1⟩ := by
  refine ⟨by decide, by
    norm_num [inConeAngle, farFootprintPlayer, QV2.normSq, qdot, V2.sub,
      V2.normSq], ?_⟩
  have hfp : getFootprintLightIntensity farFootprintPlayer ⟨10, 1⟩ =
      FOOTPRINT_MAX_INTENSITY := rfl
  unfold getLightIntensity
  calc (0 : ℝ) <
      ((getFootprintLightIntensity farFootprintPlayer ⟨10, 1⟩ : ℚ) : ℝ) := by
        rw [hfp]; norm_num [FOOTPRINT_MAX_INTENSITY]
    _ ≤ _ := le_max_right _ _

/-- C4 (amended): for a target beyond flashlight range and outside the
cone half-angle, the directional cone and the ambient glow both
contribute 0, so the illumination equals the footprint-trail term
`max 0 footprint` — in particular it is 0 exactly when no trail entry
lights the target cell, but a trail entry there still shines. -/
theorem light_beyond_range_is_footprint (mz : Maze) (pl : Player)
    (position : V2)
    (hfar : 16 < (position.sub pl.position).normSq)
    (hcone : ¬ inConeAngle pl.flashlightDirection (position.sub pl.position)) :
    getFlashlightIntensity mz pl position = 0 ∧
    getAmbientLightIntensity mz pl position = 0 ∧
    getLightIntensity mz pl position =
      max 0 ((getFootprintLightIntensity pl position : ℚ) : ℝ) := by
  have hflash : getFlashlightIntensity mz pl position = 0 := by
    unfold getFlashlightIntensity
    rw [if_neg]
    intro hill
    exact hill.1 (Or.inl hfar)
  have hamb : getAmbientLightIntensity mz pl position = 0 := by
    unfold getAmbientLightIntensity
    rw [if_pos]
    omega
  refine ⟨hflash, hamb, ?_⟩
  unfold getLightIntensity
  rw [hflash, hamb, max_self]

theorem light_beyond_range_is_footprint_witness :
    getFlashlightIntensity corridorMaze farFootprintPlayer ⟨10, 1⟩ = 0 ∧
    getAmbientLightIntensity corridorMaze farFootprintPlayer ⟨10, 1⟩ = 0 ∧
    getLightIntensity corridorMaze farFootprintPlayer ⟨10, 1⟩ =
      max 0 ((getFootprintLightIntensity farFootprintPlayer ⟨10, 1⟩ : ℚ) : ℝ) :=
  light_beyond_range_is_footprint corridorMaze farFootprintPlayer ⟨10, 1⟩
    (by decide) (by
      norm_num [inConeAngle, farFootprintPlayer, QV2.normSq, qdot, V2.sub,
        V2.normSq])

/-- C5 (amended): when every walkable path from the pursuer's cell to
the tracked target is longer than 16 steps — the cap of 15 stops
expansion, but a 16th step onto the target is still taken — the capped
breadth-first search yields the empty path, and a pursuer with an
empty path does not move on a move tick.  Both functions are total: no
error is raised or signalled. -/
theorem pursuer_far_target_path_empty (mz : Maze) (src pp : V2)
    (hfar : ∀ l : List V2, ValidPath mz src l → pathLast src l = pp →
      16 < l.length) :
    calculatePathToPlayer mz src pp = [] ∧
      ∀ m : Monster, m.path = [] → moveTowardsPlayer mz m = m := by
  constructor
  · by_contra hne
    obtain ⟨hv, hl, hlen⟩ := calculatePathToPlayer_sound mz src pp hne
    have := hfar _ hv hl
    omega
  · intro m hm
    unfold moveTowardsPlayer
    rw [hm]

theorem pursuer_far_target_path_empty_witness :
    calculatePathToPlayer allWallMaze ⟨1, 1⟩ ⟨3, 3⟩ = [] ∧
      ∀ m : Monster, m.path = [] → moveTowardsPlayer allWallMaze m = m :=
  pursuer_far_target_path_empty allWallMaze ⟨1, 1⟩ ⟨3, 3⟩ (by
    intro l hv hl
    cases l with
    | nil => exact absurd hl (by decide)
    | cons q qs => exact absurd rfl hv.2.1.2)

/-- C5 (counterexample): in a straight corridor whose far end lies 16
corridor steps away — farther than the claimed cap of 15 — the capped
search still finds the target: the stored path has length 16 and is
not cleared, contradicting the claim that any target farther than 15
steps yields an empty path. -/
theorem pursuer_cap_sixteen_found_counterexample :
    (∀ l : List V2, ValidPath corridorMaze ⟨1, 1⟩ l →
        pathLast ⟨1, 1⟩ l = ⟨17, 1⟩ → 15 < l.length) ∧
    calculatePathToPlayer corridorMaze ⟨1, 1⟩ ⟨17, 1⟩ ≠ [] ∧
    (calculatePathToPlayer corridorMaze ⟨1, 1⟩ ⟨17, 1⟩).length = 16 := by
  refine ⟨?_, by decide, by decide⟩
  intro l hv hl
  have hdx := validPath_length_ge_dx l ⟨1, 1⟩ hv
  rw [hl] at hdx
  simp only [V2.mk_x] at hdx
  omega

/-- C7: the footprint fade curve
`intensity(age) = maxFootprintIntensity · (cos(π·age/window) + 1)/2`
equals the maximum at age 0, is monotonically non-increasing on the
window, stays positive strictly inside it, and reaches 0 exactly at
`age = window` — at which point `updateFootprints` removes the entry:
every younger entry survives with the curve's intensity, and every
surviving entry is the image of a younger-than-window input entry. -/
theorem footprint_fade_spec :
    footprintFadeIntensity 0 = ((FOOTPRINT_MAX_INTENSITY : ℚ) : ℝ) ∧
    footprintFadeIntensity 15000 = 0 ∧
    (∀ a b : ℚ, 0 ≤ a → a ≤ b → b ≤ 15000 →
      footprintFadeIntensity b ≤ footprintFadeIntensity a) ∧
    (∀ a : ℚ, 0 ≤ a → a < 15000 → 0 < footprintFadeIntensity a) ∧
    (∀ (dt now : ℚ) (fps : List (Footprint ℝ)),
      (∀ f ∈ fps, now - f.timestamp < 15000 →
        Footprint.mk f.pos f.timestamp
          (footprintFadeIntensity (now - f.timestamp)) ∈
          updateFootprints dt now fps) ∧
      (∀ g ∈ updateFootprints dt now fps, ∃ f ∈ fps,
        now - f.timestamp < 15000 ∧
        g = Footprint.mk f.pos f.timestamp
          (footprintFadeIntensity (now - f.timestamp)))) := by
  have hmax : (0 : ℝ) < ((FOOTPRINT_MAX_INTENSITY : ℚ) : ℝ) := by
    norm_num [FOOTPRINT_MAX_INTENSITY]
  refine ⟨?_, ?_, ?_, ?_, ?_⟩
  · unfold footprintFadeIntensity
    have h0 : ((0 / FOOTPRINT_FADE_TIME : ℚ) : ℝ) = 0 := by
      norm_num
    rw [h0, zero_mul, Real.cos_zero]
    norm_num
  · unfold footprintFadeIntensity
    have h1 : ((15000 / FOOTPRINT_FADE_TIME : ℚ) : ℝ) = 1 := by
      norm_num [FOOTPRINT_FADE_TIME]
    rw [h1, one_mul, Real.cos_pi]
    norm_num
  · intro a b ha hab hb
    unfold footprintFadeIntensity
    have hm : (0 : ℝ) ≤ ((FOOTPRINT_MAX_INTENSITY : ℚ) : ℝ) := le_of_lt hmax
    have ha0 : (0 : ℝ) ≤ ((a / FOOTPRINT_FADE_TIME : ℚ) : ℝ) := by
      have : (0 : ℚ) ≤ a / FOOTPRINT_FADE_TIME :=
        div_nonneg ha (by norm_num [FOOTPRINT_FADE_TIME])
      exact_mod_cast this
    have hb1 : ((b / FOOTPRINT_FADE_TIME : ℚ) : ℝ) ≤ 1 := by
      have : (b / FOOTPRINT_FADE_TIME : ℚ) ≤ 1 := by
        unfold FOOTPRINT_FADE_TIME
        rw [div_le_one (by norm_num : (0 : ℚ) < 15000)]
        exact hb
      exact_mod_cast this
    have hable : ((a / FOOTPRINT_FADE_TIME : ℚ) : ℝ) ≤
        ((b / FOOTPRINT_FADE_TIME : ℚ) : ℝ) := by
      have hfd : (0 : ℚ) < FOOTPRINT_FADE_TIME := by
        norm_num [FOOTPRINT_FADE_TIME]
      have : (a / FOOTPRINT_FADE_TIME : ℚ) ≤ b / FOOTPRINT_FADE_TIME := by
        gcongr
      exact_mod_cast this
    have hcos : Real.cos (((b / FOOTPRINT_FADE_TIME : ℚ) : ℝ) * Real.pi) ≤
        Real.cos (((a / FOOTPRINT_FADE_TIME : ℚ) : ℝ) * Real.pi) := by
      apply Real.cos_le_cos_of_nonneg_of_le_pi
      · exact mul_nonneg ha0 Real.pi_pos.le
      · calc ((b / FOOTPRINT_FADE_TIME : ℚ) : ℝ) * Real.pi ≤ 1 * Real.pi :=
            mul_le_mul_of_nonneg_right hb1 Real.pi_pos.le
          _ = Real.pi := one_mul _
      · exact mul_le_mul_of_nonneg_right hable Real.pi_pos.le
    have := mul_le_mul_of_nonneg_left
      (by linarith :
        (Real.cos (((b / FOOTPRINT_FADE_TIME : ℚ) : ℝ) * Real.pi) + 1) / 2 ≤
        (Real.cos (((a / FOOTPRINT_FADE_TIME : ℚ) : ℝ) * Real.pi) + 1) / 2) hm
    linarith
  · intro a ha hlt
    unfold footprintFadeIntensity
    have ha0 : (0 : ℝ) ≤ ((a / FOOTPRINT_FADE_TIME : ℚ) : ℝ) := by
      have : (0 : ℚ) ≤ a / FOOTPRINT_FADE_TIME :=
        div_nonneg ha (by norm_num [FOOTPRINT_FADE_TIME])
      exact_mod_cast this
    have halt : ((a / FOOTPRINT_FADE_TIME : ℚ) : ℝ) < 1 := by
      have : (a / FOOTPRINT_FADE_TIME : ℚ) < 1 := by
        unfold FOOTPRINT_FADE_TIME
        rw [div_lt_one (by norm_num : (0 : ℚ) < 15000)]
        exact hlt
      exact_mod_cast this
    have hcos : Real.cos Real.pi <
        Real.cos (((a / FOOTPRINT_FADE_TIME : ℚ) : ℝ) * Real.pi) := by
      apply Real.cos_lt_cos_of_nonneg_of_le_pi
      · exact mul_nonneg ha0 Real.pi_pos.le
      · exact le_refl _
      · calc ((a / FOOTPRINT_FADE_TIME : ℚ) : ℝ) * Real.pi < 1 * Real.pi :=
            mul_lt_mul_of_pos_right halt Real.pi_pos
          _ = Real.pi := one_mul _
    rw [Real.cos_pi] at hcos
    apply mul_pos hmax
    linarith
  · intro dt now fps
    constructor
    · intro f hf hyoung
      unfold updateFootprints
      rw [List.mem_filterMap]
      refine ⟨f, hf, ?_⟩
      rw [if_neg (by unfold FOOTPRINT_FADE_TIME; linarith)]
    · intro g hg
      unfold updateFootprints at hg
      rw [List.mem_filterMap] at hg
      obtain ⟨f, hf, hsome⟩ := hg
      by_cases hage : FOOTPRINT_FADE_TIME ≤ now - f.timestamp
      · rw [if_pos hage] at hsome
        exact absurd hsome (by simp)
      · rw [if_neg hage] at hsome
        refine ⟨f, hf, by unfold FOOTPRINT_FADE_TIME at hage; linarith, ?_⟩
        exact (Option.some_injective _ hsome).symm

theorem footprint_fade_spec_witness :
    footprintFadeIntensity 15000 ≤ footprintFadeIntensity 0 ∧
    0 < footprintFadeIntensity 7500 ∧
    Footprint.mk ⟨1, 1⟩ 0 (footprintFadeIntensity (100 - 0)) ∈
      updateFootprints 0 100 [Footprint.mk ⟨1, 1⟩ 0 ((3 / 25 : ℚ) : ℝ)] :=
  ⟨footprint_fade_spec.2.2.1 0 15000 (by norm_num) (by norm_num) (by norm_num),
   footprint_fade_spec.2.2.2.1 7500 (by norm_num) (by norm_num),
   ((footprint_fade_spec.2.2.2.2 0 100
       [Footprint.mk ⟨1, 1⟩ 0 ((3 / 25 : ℚ) : ℝ)]).1
     (Footprint.mk ⟨1, 1⟩ 0 ((3 / 25 : ℚ) : ℝ))
     (List.mem_singleton.mpr rfl) (by norm_num))⟩

/-- C8: starting from construction (which includes the placement
contract's spawn) and through every sequence of accepted commands —
frame updates, moves, resets, pause/god-mode toggles, flashlight
changes — the pursuer's position is a walkable in-bounds cell of the
maze, never a wall and never out of bounds. -/
theorem pursuer_position_always_walkable (w h : Int) (rng : Nat → Nat)
    (hw : 5 ≤ w) (hh : 5 ≤ h) (cmds : List Cmd) :
    isWalkable w h (runCmds cmds (mkGameSimulation w h rng)).maze.grid
      (runCmds cmds (mkGameSimulation w h rng)).monster.position := by
  obtain ⟨hwid, hhei, hst⟩ := mkMaze_dims w h rng
  have hex : ∃ p, p ∈ allPositions (mkMaze w h rng).1.width
      (mkMaze w h rng).1.height ∧
      (mkMaze w h rng).1.grid p = CellType.floor ∧
      p ≠ (mkMaze w h rng).1.startPosition ∧
      p ≠ (mkMaze w h rng).1.prizePosition := by
    obtain ⟨p, hp1, hp2, hp3, hp4⟩ := mkMaze_floor_cell w h rng hw hh
    exact ⟨p, by rw [hwid, hhei]; exact hp1, hp2, hp3, hp4⟩
  have hinit : MonsterInv (mkMaze w h rng).1 (mkGameSimulation w h rng) := by
    refine ⟨rfl, ?_⟩
    have hpos : (mkGameSimulation w h rng).monster.position =
        (findMonsterStartPosition (mkMaze w h rng).1 rng (mkMaze w h rng).2).1 :=
      rfl
    rw [hpos]
    exact findMonsterStartPosition_walkable _ rng _ hex
  obtain ⟨hmz, hwalk⟩ :=
    runCmds_monsterInv (mkMaze w h rng).1 hex cmds _ hinit
  rw [hmz]
  rw [hwid, hhei] at hwalk
  exact hwalk

theorem pursuer_position_always_walkable_witness :
    isWalkable 5 5
      (runCmds [Cmd.update 100, Cmd.reset, Cmd.move ⟨1, 0⟩]
        (mkGameSimulation 5 5 (fun _ => 0))).maze.grid
      (runCmds [Cmd.update 100, Cmd.reset, Cmd.move ⟨1, 0⟩]
        (mkGameSimulation 5 5 (fun _ => 0))).monster.position :=
  pursuer_position_always_walkable 5 5 (fun _ => 0) (by norm_num) (by norm_num)
    [Cmd.update 100, Cmd.reset, Cmd.move ⟨1, 0⟩]

theorem getLightIntensity_nonneg (mz : Maze) (pl : Player) (p : V2) :
    0 ≤ getLightIntensity mz pl p := by
  unfold getLightIntensity
  apply le_max_of_le_left
  apply le_max_of_le_left
  unfold getFlashlightIntensity
  split
  · exact mul_nonneg (le_max_left 0 _) (le_max_left 0 _)
  · exact le_refl 0

/-- C9: with god mode enabled, the visible-cells query returns every
cell of the maze; a cell whose true illumination is zero is paired
with the floor intensity 0.2 (embedded `1/5`), and a cell whose true
illumination is nonzero keeps its real intensity. -/
theorem god_mode_all_cells_visible (s : GameSimulation)
    (hgod : s.godMode = true) :
    (getVisibleCells s).map Prod.fst =
      allPositions s.maze.width s.maze.height ∧
    ∀ pr ∈ getVisibleCells s,
      (getLightIntensity s.maze s.player pr.1 = 0 →
        pr.2 = 1 / 5 ∧ (1 / 5 : ℝ) ≤ pr.2) ∧
      (getLightIntensity s.maze s.player pr.1 ≠ 0 →
        pr.2 = getLightIntensity s.maze s.player pr.1) := by
  unfold getVisibleCells
  rw [if_pos hgod]
  constructor
  · rw [List.map_map]
    simp [Function.comp_def]
  · intro pr hpr
    rw [List.mem_map] at hpr
    obtain ⟨p, hp, rfl⟩ := hpr
    constructor
    · intro hzero
      dsimp only
      rw [if_neg (by rw [hzero]; exact lt_irrefl 0)]
      exact ⟨rfl, le_refl _⟩
    · intro hnz
      dsimp only
      rw [if_pos (lt_of_le_of_ne (getLightIntensity_nonneg s.maze s.player p)
        (Ne.symm hnz))]

theorem god_mode_all_cells_visible_witness :
    (getVisibleCells (simToggleGodMode corridorSim)).map Prod.fst =
      allPositions (simToggleGodMode corridorSim).maze.width
        (simToggleGodMode corridorSim).maze.height ∧
    ∀ pr ∈ getVisibleCells (simToggleGodMode corridorSim),
      (getLightIntensity (simToggleGodMode corridorSim).maze
          (simToggleGodMode corridorSim).player pr.1 = 0 →
        pr.2 = 1 / 5 ∧ (1 / 5 : ℝ) ≤ pr.2) ∧
      (getLightIntensity (simToggleGodMode corridorSim).maze
          (simToggleGodMode corridorSim).player pr.1 ≠ 0 →
        pr.2 = getLightIntensity (simToggleGodMode corridorSim).maze
          (simToggleGodMode corridorSim).player pr.1) :=
  god_mode_all_cells_visible (simToggleGodMode corridorSim) rfl

end DarkHall
